import Mathlib

/-!
Verification development for the supersonic-cube repository.

The development shallowly embeds, in Lean, the parts of the code that the
claims concern:

* the vendored osc.js codec (readPacket / writePacket and the functions they
  call), working over byte buffers modelled as `List Nat` with every element
  a byte value below 256;
* the ScsynthOSC worker-orchestration layer (send / cancel convenience calls
  and the three-worker initialization handshake), with workers and timers
  abstracted into explicit outcome data;
* the SuperSonic time-sync bridge (time-offset computation and the
  bundle-delay calculation of sendOSC), with JS double arithmetic modelled
  over the rationals.

Modelling conventions, stated once here and referenced from the definitions:

* A JS `DataView` over a `Uint8Array` is modelled by the byte list plus an
  explicit index.  Reads past the end of the buffer, which throw a
  `RangeError` in JS, are modelled with `Except.error`.
* JS strings are represented by their UTF-8 byte encodings (`List Nat`).
  The vendored codec decodes bytes with `TextDecoder("utf-8")` and encodes
  with `TextEncoder`, which are mutually inverse exactly on well-formed
  UTF-8 byte sequences; the validity predicates below therefore require
  string bytes to be well-formed UTF-8.
* IEEE float arguments ("f" and "d" tags) are carried as their big-endian
  bit patterns (a `Nat` below 2^32 resp. 2^64): the codec moves these bytes
  untouched through `getFloat32/setFloat32`, so the bit pattern is the
  information the wire carries.
* The `native` field that `osc.readTimeTag` derives from the raw
  `(seconds, fraction)` pair (a JS millisecond value, or `Date.now()` for
  the raw `(0,1)` sentinel) is derived data: `osc.writeTimeTag` only ever
  consults the `raw` pair when one is present.  Time tags are therefore
  modelled by their raw pair.
-/

namespace osc

/-- Byte buffers: each element is a byte value (0 ≤ b < 256). -/
abbrev Bytes := List Nat

/-- JS `idx + 3 & ~3`: round `n` up to the next multiple of 4. -/
def align4 (n : Nat) : Nat := (n + 3) / 4 * 4

/-- Big-endian value of a byte list (JS DataView reads with
`littleEndian = false` throughout the codec). -/
def beVal (bs : Bytes) : Nat := bs.foldl (fun a b => a * 256 + b) 0

/-- The `k` big-endian bytes of `n % 256^k`; the store side of
`DataView.setInt32 / setUint32 / setFloat32` with `littleEndian = false`. -/
def beBytes : Nat → Nat → Bytes
  | 0, _ => []
  | k + 1, n => beBytes k (n / 256) ++ [n % 256]

/-- Read `n` bytes at index `idx`; JS `DataView` getters throw a
`RangeError` when the read would run past the end of the buffer. -/
def getBytes (dv : Bytes) (idx n : Nat) : Except String Bytes :=
  if idx + n ≤ dv.length then .ok ((dv.drop idx).take n)
  else .error "RangeError: Offset is outside the bounds of the DataView"

/-- `DataView.getUint32(idx, false)`. -/
def getUint32 (dv : Bytes) (idx : Nat) : Except String Nat :=
  (getBytes dv idx 4).map beVal

/-- Reinterpret an unsigned 32-bit value as a signed one
(two-s complement), as `DataView.getInt32` does. -/
def toInt32 (n : Nat) : Int :=
  if n < 2 ^ 31 then (n : Int) else (n : Int) - 2 ^ 32

/-- `osc.readInt32`: `DataView.getInt32(idx, false)`. -/
def readInt32 (dv : Bytes) (idx : Nat) : Except String (Int × Nat) :=
  (getUint32 dv idx).map (fun n => (toInt32 n, idx + 4))

/-- `osc.writeInt32` / `DataView.setInt32`: JS applies ToInt32 and stores the
two-s complement bytes, i.e. the big-endian bytes of `v mod 2^32`. -/
def writeInt32 (v : Int) : Bytes := beBytes 4 (v % (2 ^ 32 : Int)).toNat

/-- The character-code scan of `osc.readString`: walk the bytes, collecting
non-zero bytes until a NUL byte or the end of the buffer.  Returns the
collected bytes, the number of bytes consumed (including the NUL when one
was found), and whether a NUL was found. -/
def scanString : Bytes → Bytes × Nat × Bool
  | [] => ([], 0, false)
  | b :: rest =>
    if b ≠ 0 then
      let r := scanString rest
      (b :: r.1, r.2.1 + 1, r.2.2)
    else ([], 1, true)

/-- `osc.readString`: collect bytes up to a NUL terminator (or the end of
the buffer), then round the index up to a 4-byte boundary
(`idx = idx + 3 & ~3`).  The JS function decodes the collected bytes with
`TextDecoder("utf-8")`; the model keeps the bytes.  Never throws. -/
def readString (dv : Bytes) (idx : Nat) : Bytes × Nat :=
  let r := scanString (dv.drop idx)
  (r.1, align4 (idx + r.2.1))

/-- `osc.writeString`: encode the string plus a NUL terminator, allocate a
zero-filled array padded to a 4-byte boundary, and copy every byte except
the final NUL (the copy loop runs to `len - 1`; the terminator position is
already zero).  The argument is the UTF-8 byte encoding of the JS string. -/
def writeString (s : Bytes) : Bytes :=
  s ++ List.replicate (align4 (s.length + 1) - s.length) 0

end osc

-- ## Basic lemmas about the byte primitives

namespace osc

theorem align4_dvd (n : Nat) : 4 ∣ align4 n :=
  ⟨(n + 3) / 4, by unfold align4; ring⟩

theorem le_align4 (n : Nat) : n ≤ align4 n := by
  have h1 := Nat.div_add_mod (n + 3) 4
  have h2 : (n + 3) % 4 < 4 := Nat.mod_lt _ (by omega)
  unfold align4
  omega

theorem align4_le (n : Nat) : align4 n ≤ n + 3 := by
  have h1 := Nat.div_add_mod (n + 3) 4
  unfold align4
  omega

theorem align4_add_of_dvd {i : Nat} (h : 4 ∣ i) (k : Nat) :
    align4 (i + k) = i + align4 k := by
  obtain ⟨m, rfl⟩ := h
  unfold align4
  have hc : 4 * m + k + 3 = k + 3 + 4 * m := by ring
  rw [hc, Nat.add_mul_div_left _ _ (by omega : (0:Nat) < 4)]
  ring

theorem beBytes_length (k n : Nat) : (beBytes k n).length = k := by
  induction k generalizing n with
  | zero => rfl
  | succ k ih => simp [beBytes, ih]

theorem beBytes_lt (k n : Nat) : ∀ b ∈ beBytes k n, b < 256 := by
  induction k generalizing n with
  | zero => simp [beBytes]
  | succ k ih =>
    intro b hb
    simp only [beBytes, List.mem_append, List.mem_singleton] at hb
    rcases hb with h | h
    · exact ih _ _ h
    · subst h; exact Nat.mod_lt _ (by omega)

theorem beVal_append (bs : Bytes) (b : Nat) :
    beVal (bs ++ [b]) = beVal bs * 256 + b := by
  simp [beVal, List.foldl_append]

theorem beVal_beBytes (k n : Nat) : beVal (beBytes k n) = n % 256 ^ k := by
  induction k generalizing n with
  | zero => simp [beBytes, beVal, Nat.mod_one]
  | succ k ih =>
    rw [beBytes, beVal_append, ih, pow_succ', Nat.mod_mul]
    ring

theorem beVal_beBytes_of_lt {k n : Nat} (h : n < 256 ^ k) :
    beVal (beBytes k n) = n := by
  rw [beVal_beBytes, Nat.mod_eq_of_lt h]

theorem getBytes_append (pre bs post : Bytes) {n : Nat} (h : n ≤ bs.length) :
    getBytes (pre ++ (bs ++ post)) pre.length n = .ok (bs.take n) := by
  unfold getBytes
  rw [List.drop_left, List.take_append_of_le_length h]
  simp only [List.length_append]
  rw [if_pos (by omega)]

theorem getUint32_append (pre bs post : Bytes) (h : bs.length = 4) :
    getUint32 (pre ++ (bs ++ post)) pre.length = .ok (beVal bs) := by
  unfold getUint32
  rw [getBytes_append pre bs post (by omega), List.take_of_length_le (by omega)]
  rfl

theorem writeString_length (s : Bytes) :
    (writeString s).length = align4 (s.length + 1) := by
  have := le_align4 (s.length + 1)
  simp [writeString]
  omega

theorem scanString_append (s post : Bytes) (hs : ∀ b ∈ s, b ≠ 0) :
    scanString (s ++ 0 :: post) = (s, s.length + 1, true) := by
  induction s with
  | nil => simp [scanString]
  | cons b rest ih =>
    have hb : b ≠ 0 := hs b (by simp)
    simp only [List.cons_append, scanString, if_pos hb, List.append_eq]
    rw [ih (fun x hx => hs x (by simp [hx]))]
    simp [Nat.add_comm]

/-- Reading a written string from the middle of a buffer: if the read starts
at a 4-byte boundary, the collected bytes are exactly the written string and
the index advances over the padded length. -/
theorem readString_writeString (pre s post : Bytes) (hpre : 4 ∣ pre.length)
    (hs : ∀ b ∈ s, b ≠ 0) :
    readString (pre ++ (writeString s ++ post)) pre.length
      = (s, pre.length + (writeString s).length) := by
  have hlen := writeString_length s
  have hle := le_align4 (s.length + 1)
  unfold readString
  rw [List.drop_left]
  have harr : writeString s ++ post
      = s ++ (0 :: (List.replicate (align4 (s.length + 1) - s.length - 1) 0 ++ post)) := by
    unfold writeString
    have hk : align4 (s.length + 1) - s.length
        = (align4 (s.length + 1) - s.length - 1) + 1 := by omega
    rw [hk, List.replicate_succ]
    simp
  rw [harr, scanString_append s _ hs]
  simp only
  rw [align4_add_of_dvd hpre, hlen]

end osc

-- ## The codec data model

namespace osc

/-- The JS values the codec's argument readers and writers traffic in.
Constructors record the dynamic shape of the corresponding JS value:

* `int32V v` — a JS number holding an integer (also the result of
  `readInt32` and `readImpulse`, which returns the number 1);
* `int64V high low` — the plain `{high, low, unsigned: false}` object
  (`osc.Long` is `undefined` in this browser bundle);
* `float32V bits` / `float64V bits` — a JS number carried as the IEEE
  bit pattern of its 4- resp. 8-byte wire form (see the header comment);
* `strV s` — a JS string, represented by its UTF-8 byte encoding;
* `blobV data` — a `Uint8Array`;
* `timeTagV secs frac` — the `{raw: [secs, frac], native: ...}` object,
  represented by its raw pair (`native` is derived data, never consulted
  by `osc.writeTimeTag` when `raw` is present);
* `boolV` / `nullV` — JS booleans / `null`;
* `charV code` — a one-character JS string; `String.fromCharCode` reduces
  the code unit modulo 2^16, so `code < 2^16` for every actual JS string;
* `colorV r g b alpha` — the `{r, g, b, a}` object; `a` is
  `alpha / 255` in JS and is represented here by the alpha byte, which
  `osc.writeColor` recovers as `Math.round(a * 255)`;
* `midiV` — a 4-byte `Uint8Array` of MIDI bytes;
* `typed tag value` — a `{type, value}` argument object (tag is the byte
  value of the type-tag character);
* `arrV elems` — a JS array;
* `undefV` — `undefined`. -/
inductive Arg : Type where
  | int32V (v : Int)
  | int64V (high low : Int)
  | float32V (bits : Nat)
  | float64V (bits : Nat)
  | strV (s : Bytes)
  | blobV (data : Bytes)
  | timeTagV (secs frac : Nat)
  | boolV (b : Bool)
  | nullV
  | charV (code : Nat)
  | colorV (r g b alpha : Nat)
  | midiV (b0 b1 b2 b3 : Nat)
  | typed (tag : Nat) (value : Arg)
  | arrV (elems : List Arg)
  | undefV

/-- An OSC packet: a message (`{address, args}`, where `args` is an
arbitrary JS value, normally an array of arguments) or a bundle
(`{timeTag, packets}` with the time tag's raw pair). -/
inductive Packet : Type where
  | msg (address : Bytes) (args : Arg)
  | bundle (ttSecs ttFrac : Nat) (packets : List Packet)

/-- Codec options (`osc.defaults` merges over these two fields). -/
structure Opts where
  metadata : Bool
  unpackSingleArgs : Bool

/-- `osc.defaults = {metadata: false, unpackSingleArgs: true}`. -/
def defaults : Opts := ⟨false, true⟩

end osc

-- ## Decoder

namespace osc

/-- `osc.readInt64`: two big-endian `getInt32` reads; `osc.Long` is
`undefined` in this bundle, so the `{high, low, unsigned: false}` branch
is taken. -/
def readInt64 (dv : Bytes) (idx : Nat) : Except String (Arg × Nat) :=
  match readInt32 dv idx with
  | .error e => .error e
  | .ok (hi, idx1) =>
    match readInt32 dv idx1 with
    | .error e => .error e
    | .ok (lo, idx2) => .ok (.int64V hi lo, idx2)

/-- `osc.readFloat32`: `getFloat32` reads 4 big-endian bytes and returns
the float they denote; the model carries the bit pattern. -/
def readFloat32 (dv : Bytes) (idx : Nat) : Except String (Arg × Nat) :=
  (getUint32 dv idx).map (fun n => (Arg.float32V n, idx + 4))

/-- `osc.readFloat64`: `getFloat64` reads 8 big-endian bytes. -/
def readFloat64 (dv : Bytes) (idx : Nat) : Except String (Arg × Nat) :=
  (getBytes dv idx 8).map (fun bs => (Arg.float64V (beVal bs), idx + 8))

/-- `osc.readChar32`: `getUint32` followed by `String.fromCharCode`, which
takes the code unit modulo 2^16 (ToUint16). -/
def readChar32 (dv : Bytes) (idx : Nat) : Except String (Arg × Nat) :=
  (getUint32 dv idx).map (fun n => (Arg.charV (n % 2 ^ 16), idx + 4))

/-- `osc.readBlob`: a signed 4-byte length, `len` raw bytes viewed out of
the buffer (the `Uint8Array` view constructor throws for a negative length
or a view past the end of the buffer), and the index advanced by the
padded length `len + 3 & ~3`. -/
def readBlob (dv : Bytes) (idx : Nat) : Except String (Arg × Nat) :=
  match readInt32 dv idx with
  | .error e => .error e
  | .ok (len, idx1) =>
    if 0 ≤ len ∧ idx1 + len.toNat ≤ dv.length then
      .ok (.blobV ((dv.drop idx1).take len.toNat), idx1 + align4 len.toNat)
    else .error "RangeError: Invalid typed array length"

/-- `osc.readMIDIBytes`: a 4-byte `Uint8Array` view. -/
def readMIDIBytes (dv : Bytes) (idx : Nat) : Except String (Arg × Nat) :=
  match getBytes dv idx 4 with
  | .error e => .error e
  | .ok bs => .ok (.midiV (bs.getD 0 0) (bs.getD 1 0) (bs.getD 2 0) (bs.getD 3 0), idx + 4)

/-- `osc.readColor`: a 4-byte view giving `{r, g, b, a: bytes[3]/255}`;
the model carries the alpha byte (see `Arg.colorV`). -/
def readColor (dv : Bytes) (idx : Nat) : Except String (Arg × Nat) :=
  match getBytes dv idx 4 with
  | .error e => .error e
  | .ok bs => .ok (.colorV (bs.getD 0 0) (bs.getD 1 0) (bs.getD 2 0) (bs.getD 3 0), idx + 4)

/-- `osc.readTimeTag`: two big-endian `getUint32` reads giving the raw
`(seconds, fraction)` pair.  The JS function also computes a derived
`native` value (`Date.now()` when the raw pair is the `(0,1)` immediate
sentinel, `osc.ntpToJSTime` otherwise); `native` is not represented since
nothing in the codec reads it back (`osc.writeTimeTag` uses `raw`). -/
def readTimeTag (dv : Bytes) (idx : Nat) : Except String ((Nat × Nat) × Nat) :=
  match getUint32 dv idx with
  | .error e => .error e
  | .ok s =>
    match getUint32 dv (idx + 4) with
    | .error e => .error e
    | .ok f => .ok ((s, f), idx + 8)

/-- `osc.readArgument`: dispatch on the type-tag character through
`osc.argumentTypes` (byte values of the tag characters:
i=105 h=104 f=102 s=115 S=83 b=98 t=116 T=84 F=70 N=78 I=73 d=100 c=99
r=114 m=109); `T`, `F`, `N`, `I` consume no bytes.  With
`options.metadata` the value is wrapped as `{type, value}`. -/
def readArgument (argType : Nat) (dv : Bytes) (options : Opts) (idx : Nat) :
    Except String (Arg × Nat) :=
  let r : Except String (Arg × Nat) :=
    match argType with
    | 105 => (readInt32 dv idx).map (fun p => (Arg.int32V p.1, p.2))
    | 104 => readInt64 dv idx
    | 102 => readFloat32 dv idx
    | 115 => let p := readString dv idx; .ok (.strV p.1, p.2)
    | 83 => let p := readString dv idx; .ok (.strV p.1, p.2)
    | 98 => readBlob dv idx
    | 116 => (readTimeTag dv idx).map (fun p => (Arg.timeTagV p.1.1 p.1.2, p.2))
    | 84 => .ok (.boolV true, idx)
    | 70 => .ok (.boolV false, idx)
    | 78 => .ok (.nullV, idx)
    | 73 => .ok (.int32V 1, idx)
    | 100 => readFloat64 dv idx
    | 99 => readChar32 dv idx
    | 114 => readColor dv idx
    | 109 => readMIDIBytes dv idx
    | _ => .error "not a valid OSC type tag"
  match r with
  | .error e => .error e
  | .ok (v, idx2) => .ok (if options.metadata then .typed argType v else v, idx2)

/-- `osc.readArgumentsIntoArray`, reformulated as recursion over the list
of remaining type-tag bytes (the JS `while` loop with index `i` walks the
same suffixes).  On an open-array tag `[` (91) the FIRST following `]`
(93) is located with `indexOf`; the tags strictly before it are decoded
recursively as the nested array and the loop resumes after it
(`i += endArrayIdx + 2`).  A missing `]` is the unterminated-array
error. -/
def readArgsLoop (argTypes : List Nat) (dv : Bytes) (options : Opts) (idx : Nat) :
    Except String (List Arg × Nat) :=
  match argTypes with
  | [] => .ok ([], idx)
  | t :: rest =>
    if t = 91 then
      match rest.findIdx? (· = 93) with
      | none => .error "Invalid argument type tag: an open array type tag was found without a matching close array tag"
      | some k =>
        match readArgsLoop (rest.take k) dv options idx with
        | .error e => .error e
        | .ok (inner, idx1) =>
          match readArgsLoop (rest.drop (k + 1)) dv options idx1 with
          | .error e => .error e
          | .ok (outer, idx2) => .ok (.arrV inner :: outer, idx2)
    else
      match readArgument t dv options idx with
      | .error e => .error e
      | .ok (a, idx1) =>
        match readArgsLoop rest dv options idx1 with
        | .error e => .error e
        | .ok (outer, idx2) => .ok (a :: outer, idx2)
termination_by argTypes.length
decreasing_by
  all_goals (simp [List.length_take, List.length_drop]; try omega)

/-- `osc.readArguments`: read the type-tag string, require it to begin
with `,` (44), and decode one argument per remaining tag. -/
def readArguments (dv : Bytes) (options : Opts) (idx : Nat) :
    Except String (List Arg × Nat) :=
  let p := readString dv idx
  match p.1 with
  | 44 :: argTypes => readArgsLoop argTypes dv options p.2
  | _ => .error "A malformed type tag string was found while reading the arguments of an OSC message"

/-- `osc.readMessageContents`: the address must begin with `/` (47); with
`options.unpackSingleArgs` a single decoded argument is returned itself,
otherwise the argument list (a JS array) is returned. -/
def readMessageContents (address : Bytes) (dv : Bytes) (options : Opts) (idx : Nat) :
    Except String (Packet × Nat) :=
  if address.head? = some 47 then
    match readArguments dv options idx with
    | .error e => .error e
    | .ok (args, idx1) =>
      .ok (.msg address
            (if args.length = 1 ∧ options.unpackSingleArgs = true then args.headD .nullV
             else .arrV args), idx1)
  else .error "A malformed OSC address was found while reading an OSC message"

mutual

/-- `osc.readPacket` body (with explicit fuel; see `readPacket`): read the
leading padded string and dispatch on its FIRST character only — `#` (35)
continues as bundle contents (`osc.readBundleContents`: 8-byte time tag,
then length-prefixed sub-packets up to `len`), `/` (47) as message
contents, anything else is an error. -/
def readPacketF (fuel : Nat) (dv : Bytes) (options : Opts) (idx : Nat) (len : Int) :
    Except String (Packet × Nat) :=
  match fuel with
  | 0 => .error "model: out of fuel"
  | fuel' + 1 =>
    let p := readString dv idx
    if p.1.head? = some 35 then
      match readTimeTag dv p.2 with
      | .error e => .error e
      | .ok ((s, f), idx1) =>
        match readBundleLoop fuel' dv options idx1 len with
        | .error e => .error e
        | .ok (packets, idx2) => .ok (.bundle s f packets, idx2)
    else if p.1.head? = some 47 then
      readMessageContents p.1 dv options p.2
    else .error "The header of an OSC packet did not contain an OSC address or a #bundle string"
termination_by fuel

/-- The `while (offsetState.idx < len)` loop of `osc.readBundleContents`:
read a signed 4-byte element size, recursively decode the element with
`len` set to `idx + packetSize`, and continue. -/
def readBundleLoop (fuel : Nat) (dv : Bytes) (options : Opts) (idx : Nat) (len : Int) :
    Except String (List Packet × Nat) :=
  match fuel with
  | 0 => .error "model: out of fuel"
  | fuel' + 1 =>
    if (idx : Int) < len then
      match readInt32 dv idx with
      | .error e => .error e
      | .ok (packetSize, idx1) =>
        match readPacketF fuel' dv options idx1 ((idx1 : Int) + packetSize) with
        | .error e => .error e
        | .ok (packet, idx2) =>
          match readBundleLoop fuel' dv options idx2 len with
          | .error e => .error e
          | .ok (packets, idx3) => .ok (packet :: packets, idx3)
    else .ok ([], idx)
termination_by fuel

end

/-- `osc.readPacket` on a whole buffer (`offsetState.idx = 0`,
`len = dv.byteLength`).  The fuel `data.length + 1` is an upper bound on
the recursion depth the JS functions can reach before erroring or
finishing: every recursive entry is preceded by at least 4 bytes of the
buffer being consumed, and the round-trip lemmas below prove directly
that this fuel suffices on every encoder output. -/
def readPacket (data : Bytes) (options : Opts) : Except String Packet :=
  match readPacketF (data.length + 1) data options 0 (data.length : Int) with
  | .error e => .error e
  | .ok (p, _) => .ok p

end osc

-- ## Encoder

namespace osc

/-- The intermediate structure `{byteLength, parts}` the collectors build
(`osc.collectArguments` / `osc.collectMessageParts` /
`osc.collectBundlePackets`). -/
structure DataCollection where
  byteLength : Nat
  parts : List Bytes

/-- `osc.addDataPart`: push a part and add its length. -/
def addDataPart (dataPart : Bytes) (dc : DataCollection) : DataCollection :=
  ⟨dc.byteLength + dataPart.length, dc.parts ++ [dataPart]⟩

/-- `osc.joinParts`: copy the parts back to back into a buffer of
`byteLength` bytes.  Every collection the codec builds satisfies
`byteLength = sum of the part lengths` (proved below as
`collect` invariants), under which the copy is exactly concatenation. -/
def joinParts (dc : DataCollection) : Bytes := dc.parts.flatten

/-- `osc.writeTimeTag` on a `{raw: [secs, frac]}` time tag: two
`setInt32` stores of the raw pair. -/
def writeTimeTag (s f : Nat) : Bytes := writeInt32 (s : Int) ++ writeInt32 (f : Int)

/-- `osc.writeBlob`: 4-byte signed length, the raw bytes, zero padding to
a 4-byte boundary. -/
def writeBlob (data : Bytes) : Bytes :=
  writeInt32 (data.length : Int) ++ data
    ++ List.replicate (align4 data.length - data.length) 0

/-- The byte output of the writer `osc.argumentTypes[tag].writer` applied
to `arg.value`.  For a valid typed argument the value kind matches the
writer; a mismatched kind would undergo JS ToNumber/ToString coercion and
is outside the validity predicate, so the model maps it to an error.
Writers: `writeInt32`, `writeInt64` (high word then low word),
`writeFloat32`/`writeFloat64` (the stored IEEE bit patterns),
`writeString`, `writeBlob`, `writeTimeTag`, `writeChar32`
(`setUint32` of the character code), `writeColor`
(`[r, g, b, Math.round(a*255)]`, i.e. the alpha byte), and
`writeMIDIBytes`. -/
def writeArgValue (tag : Nat) (v : Arg) : Except String Bytes :=
  match v with
  | .int32V n => if tag = 105 then .ok (writeInt32 n)
      else .error "model: writer applied to a mismatched value kind"
  | .int64V hi lo => if tag = 104 then .ok (writeInt32 hi ++ writeInt32 lo)
      else .error "model: writer applied to a mismatched value kind"
  | .float32V bits => if tag = 102 then .ok (beBytes 4 bits)
      else .error "model: writer applied to a mismatched value kind"
  | .float64V bits => if tag = 100 then .ok (beBytes 8 bits)
      else .error "model: writer applied to a mismatched value kind"
  | .strV s => if tag = 115 ∨ tag = 83 then .ok (writeString s)
      else .error "model: writer applied to a mismatched value kind"
  | .blobV data => if tag = 98 then .ok (writeBlob data)
      else .error "model: writer applied to a mismatched value kind"
  | .timeTagV s f => if tag = 116 then .ok (writeTimeTag s f)
      else .error "model: writer applied to a mismatched value kind"
  | .charV code => if tag = 99 then .ok (beBytes 4 (code % 2 ^ 32))
      else .error "model: writer applied to a mismatched value kind"
  | .colorV r g b a => if tag = 114 then .ok [r % 256, g % 256, b % 256, a % 256]
      else .error "model: writer applied to a mismatched value kind"
  | .midiV b0 b1 b2 b3 => if tag = 109 then .ok [b0 % 256, b1 % 256, b2 % 256, b3 % 256]
      else .error "model: writer applied to a mismatched value kind"
  | _ => .error "model: writer applied to a mismatched value kind"

/-- The type tags `osc.argumentTypes` knows (i h f s S b t T F N I d c r
m); an unknown tag makes `osc.writeArgument` fail with a TypeError when
it dereferences `argumentTypes[type].writer`. -/
def knownTag (t : Nat) : Bool :=
  t = 105 ∨ t = 104 ∨ t = 102 ∨ t = 115 ∨ t = 83 ∨ t = 98 ∨ t = 116 ∨ t = 84
    ∨ t = 70 ∨ t = 78 ∨ t = 73 ∨ t = 100 ∨ t = 99 ∨ t = 114 ∨ t = 109

/-- The tags whose `argumentTypes` entry has no `writer` (T F N I): they
contribute their tag character and no payload bytes. -/
def noPayloadTag (t : Nat) : Bool := t = 84 ∨ t = 70 ∨ t = 78 ∨ t = 73

/-- `osc.inferTypeForArgument`: infer a wire type from the runtime kind of
an untyped native value.  `typeof` dispatch: booleans give T/F, strings
(including one-character strings, `Arg.charV`) give s, every number gives
f, `undefined` and `null` give N, `Uint8Array`/`ArrayBuffer` give b, a
plain object with numeric `high` and `low` gives h, and anything else is
the checked error. -/
def inferTypeForArgument (arg : Arg) : Except String Nat :=
  match arg with
  | .boolV true => .ok 84
  | .boolV false => .ok 70
  | .strV _ => .ok 115
  | .charV _ => .ok 115
  | .int32V _ => .ok 102
  | .float32V _ => .ok 102
  | .float64V _ => .ok 102
  | .undefV => .ok 78
  | .nullV => .ok 78
  | .blobV _ => .ok 98
  | .midiV _ _ _ _ => .ok 98
  | .int64V _ _ => .ok 104
  | _ => .error "cannot infer OSC argument type for value"

/-- `osc.annotateArguments`: keep `{type, value}` pairs (with a defined
value), annotate nested arrays recursively, and wrap every other value
with its inferred type.  A `{type, value: undefined}` pair falls through
to `inferTypeForArgument` applied to the pair object, which throws.  A
bare `null` never reaches the inferrer: the guard
`typeof arg === "object" && arg.type` evaluates `arg.type` on it
(`typeof null` is `"object"`) and throws a TypeError. -/
def annotateArguments : List Arg → Except String (List Arg)
  | [] => .ok []
  | arg :: rest =>
    let m : Except String Arg :=
      match arg with
      | .typed t v =>
        match v with
        | .undefV => (inferTypeForArgument (.typed t v)).map (fun ty => .typed ty (.typed t v))
        | _ => .ok (.typed t v)
      | .arrV elems => (annotateArguments elems).map Arg.arrV
      | .nullV => .error "TypeError: Cannot read properties of null"
      | a => (inferTypeForArgument a).map (fun ty => .typed ty a)
    match m with
    | .error e => .error e
    | .ok msgArg =>
      match annotateArguments rest with
      | .error e => .error e
      | .ok r => .ok (msgArg :: r)
termination_by args => sizeOf args

mutual

/-- `osc.writeArgument`: a JS array becomes a bracketed array
(`osc.writeArrayArguments`), a `{type, value}` argument contributes its
tag character and its writer's payload (no payload for T F N I), and any
other value (no `.type` property, or an unknown tag) raises a
TypeError. -/
def writeArgument (arg : Arg) (dc : DataCollection) :
    Except String (List Nat × DataCollection) :=
  match arg with
  | .arrV elems => writeArrayArguments elems dc
  | .typed tag v =>
    if knownTag tag then
      if noPayloadTag tag then .ok ([tag], dc)
      else
        match writeArgValue tag v with
        | .error e => .error e
        | .ok data => .ok ([tag], addDataPart data dc)
    else .error "TypeError: cannot read writer of undefined argument type"
  | _ => .error "TypeError: cannot read writer of undefined argument type"
termination_by (sizeOf arg, 0)

/-- `osc.writeArrayArguments`: `[`, each element's tags and payloads in
order, `]`. -/
def writeArrayArguments (args : List Arg) (dc : DataCollection) :
    Except String (List Nat × DataCollection) :=
  match writeArgsSeq args dc with
  | .error e => .error e
  | .ok (tags, dc1) => .ok (91 :: (tags ++ [93]), dc1)
termination_by (sizeOf args, 1)

/-- The `for` loop shared by `osc.collectArguments` and
`osc.writeArrayArguments`: fold `osc.writeArgument` over the argument
list, concatenating the contributed tag characters. -/
def writeArgsSeq (args : List Arg) (dc : DataCollection) :
    Except String (List Nat × DataCollection) :=
  match args with
  | [] => .ok ([], dc)
  | a :: rest =>
    match writeArgument a dc with
    | .error e => .error e
    | .ok (t1, dc1) =>
      match writeArgsSeq rest dc1 with
      | .error e => .error e
      | .ok (t2, dc2) => .ok (t1 ++ t2, dc2)
termination_by (sizeOf args, 0)

end

/-- `osc.collectArguments`: normalize `args` to a list (a lone value
becomes a one-element list, `undefined` becomes the empty list), annotate
when `options.metadata` is false, fold `osc.writeArgument`, then splice
the encoded `,`-prefixed type-tag string in front of the parts this call
contributed (`parts.splice(currPartIdx, 0, typeData)` with `currPartIdx`
captured as the part count before the loop). -/
def collectArguments (args : Arg) (options : Opts) (dc : DataCollection) :
    Except String DataCollection :=
  let argsList : List Arg :=
    match args with
    | .arrV l => l
    | .undefV => []
    | a => [a]
  let annotated : Except String (List Arg) :=
    if options.metadata then .ok argsList else annotateArguments argsList
  match annotated with
  | .error e => .error e
  | .ok args2 =>
    match writeArgsSeq args2 dc with
    | .error e => .error e
    | .ok (tags, dc1) =>
      let typeData := writeString (44 :: tags)
      .ok ⟨dc1.byteLength + typeData.length,
           dc1.parts.take dc.parts.length ++ [typeData] ++ dc1.parts.drop dc.parts.length⟩

/-- `osc.collectMessageParts`: the address string part, then the
arguments (always called with a fresh collection by `osc.writeMessage`
and `osc.collectBundlePackets`). -/
def collectMessageParts (address : Bytes) (args : Arg) (options : Opts) :
    Except String DataCollection :=
  collectArguments args options (addDataPart (writeString address) ⟨0, []⟩)

/-- `osc.isValidMessage`: `msg.address && msg.address.indexOf("/") === 0`
(a bundle has no `address` property). -/
def isValidMessage (packet : Packet) : Bool :=
  match packet with
  | .msg addr _ => addr ≠ [] ∧ addr.head? = some 47
  | .bundle _ _ _ => false

/-- `osc.isValidBundle`: `timeTag` and `packets` both defined (always
true of a bundle object, never of a message object). -/
def isValidBundle (packet : Packet) : Bool :=
  match packet with
  | .msg _ _ => false
  | .bundle _ _ _ => true

/-- `osc.writeMessage`: validity check, collect, join. -/
def writeMessage (address : Bytes) (args : Arg) (options : Opts) :
    Except String Bytes :=
  if isValidMessage (.msg address args) then
    (collectMessageParts address args options).map joinParts
  else .error "An OSC message must contain a valid address"

/-- The "#bundle" header string (UTF-8 bytes of `#bundle`). -/
def bundleTag : Bytes := [35, 98, 117, 110, 100, 108, 101]

mutual

/-- `osc.collectBundlePackets`: the `#bundle` string part, the time tag
part, then each sub-packet prefixed with its 4-byte size. -/
def collectBundlePackets (ttS ttF : Nat) (packets : List Packet) (options : Opts) :
    Except String DataCollection :=
  collectPacketsLoop packets options
    (addDataPart (writeTimeTag ttS ttF) (addDataPart (writeString bundleTag) ⟨0, []⟩))
termination_by (sizeOf packets, 1)

/-- The sub-packet loop of `osc.collectBundlePackets`: each packet is
collected with `collectMessageParts` when it has a (truthy, i.e.
non-empty) `address` and with `collectBundlePackets` otherwise; a message
with an empty address is therefore routed to the bundle collector, which
throws a TypeError dereferencing its undefined `timeTag`.  The packet's
`byteLength` is added, then a 4-byte size part is pushed, then the
sub-collection's parts are appended. -/
def collectPacketsLoop (packets : List Packet) (options : Opts) (dc : DataCollection) :
    Except String DataCollection :=
  match packets with
  | [] => .ok dc
  | p :: rest =>
    let sub : Except String DataCollection :=
      match p with
      | .msg addr args =>
        if addr ≠ [] then collectMessageParts addr args options
        else .error "TypeError: cannot read raw of undefined time tag"
      | .bundle s f ps => collectBundlePackets s f ps options
    match sub with
    | .error e => .error e
    | .ok pc =>
      let dc1 : DataCollection := ⟨dc.byteLength + pc.byteLength, dc.parts⟩
      let dc2 := addDataPart (writeInt32 (pc.byteLength : Int)) dc1
      collectPacketsLoop rest options ⟨dc2.byteLength, dc2.parts ++ pc.parts⟩
termination_by (sizeOf packets, 0)

end

/-- `osc.writeBundle`: validity check, collect, join. -/
def writeBundle (ttS ttF : Nat) (packets : List Packet) (options : Opts) :
    Except String Bytes :=
  (collectBundlePackets ttS ttF packets options).map joinParts

/-- `osc.writePacket`: messages with a valid address are written as
messages, bundles as bundles, anything else is the unrecognized-packet
error. -/
def writePacket (packet : Packet) (options : Opts) : Except String Bytes :=
  match packet with
  | .msg addr args =>
    if isValidMessage packet then writeMessage addr args options
    else .error "The specified packet was not recognized as a valid OSC message or bundle"
  | .bundle s f ps => writeBundle s f ps options

end osc

-- ## Validity predicates and spec-level byte layouts

namespace osc

/-- Continuation byte of a UTF-8 sequence. -/
def utf8Cont (b : Nat) : Bool := 128 ≤ b && b ≤ 191

/-- Well-formed UTF-8 (shortest form, no surrogates, up to U+10FFFF).
JS strings are modelled by their UTF-8 encodings (see the header
comment); `TextDecoder("utf-8")` and `TextEncoder` are mutually inverse
exactly on byte lists satisfying this predicate, so the validity
predicates require it of every string the codec round-trips. -/
def validUtf8 : Bytes → Bool
  | [] => true
  | b :: rest =>
    if b < 128 then validUtf8 rest
    else if 194 ≤ b && b ≤ 223 then
      match rest with
      | c :: r => utf8Cont c && validUtf8 r
      | [] => false
    else if b = 224 then
      match rest with
      | c1 :: c2 :: r => (160 ≤ c1 && c1 ≤ 191) && utf8Cont c2 && validUtf8 r
      | _ => false
    else if (225 ≤ b && b ≤ 236) || b = 238 || b = 239 then
      match rest with
      | c1 :: c2 :: r => utf8Cont c1 && utf8Cont c2 && validUtf8 r
      | _ => false
    else if b = 237 then
      match rest with
      | c1 :: c2 :: r => (128 ≤ c1 && c1 ≤ 159) && utf8Cont c2 && validUtf8 r
      | _ => false
    else if b = 240 then
      match rest with
      | c1 :: c2 :: c3 :: r =>
        (144 ≤ c1 && c1 ≤ 191) && utf8Cont c2 && utf8Cont c3 && validUtf8 r
      | _ => false
    else if 241 ≤ b && b ≤ 243 then
      match rest with
      | c1 :: c2 :: c3 :: r => utf8Cont c1 && utf8Cont c2 && utf8Cont c3 && validUtf8 r
      | _ => false
    else if b = 244 then
      match rest with
      | c1 :: c2 :: c3 :: r =>
        (128 ≤ c1 && c1 ≤ 143) && utf8Cont c2 && utf8Cont c3 && validUtf8 r
      | _ => false
    else false

/-- A byte list that is the UTF-8 encoding of a JS string usable as an
OSC string: no NUL bytes (the wire terminator), bytes below 256, and
well-formed UTF-8. -/
def validOscString (s : Bytes) : Bool :=
  s.all (fun b => decide (b ≠ 0) && decide (b < 256)) && validUtf8 s

/-- Signed 32-bit range. -/
def int32Range (v : Int) : Bool := decide (-(2 ^ 31) ≤ v) && decide (v < 2 ^ 31)

/-- A valid `{type, value}` scalar argument: the value's kind matches the
tag and the value is representable on the wire (so that the JS reader
recovers exactly it). -/
def validScalar (tag : Nat) (v : Arg) : Bool :=
  match v with
  | .int32V n => if tag = 105 then int32Range n else if tag = 73 then n == 1 else false
  | .int64V hi lo => if tag = 104 then int32Range hi && int32Range lo else false
  | .float32V bits => if tag = 102 then decide (bits < 2 ^ 32) else false
  | .float64V bits => if tag = 100 then decide (bits < 2 ^ 64) else false
  | .strV s => if tag = 115 ∨ tag = 83 then validOscString s else false
  | .blobV data =>
    if tag = 98 then data.all (fun b => decide (b < 256)) && decide (data.length < 2 ^ 31)
    else false
  | .timeTagV s f =>
    if tag = 116 then decide (s < 2 ^ 32) && decide (f < 2 ^ 32) else false
  | .boolV b => if tag = 84 then b else if tag = 70 then !b else false
  | .nullV => decide (tag = 78)
  | .charV code => if tag = 99 then decide (code < 2 ^ 16) else false
  | .colorV r g b a =>
    if tag = 114 then
      decide (r < 256) && decide (g < 256) && decide (b < 256) && decide (a < 256)
    else false
  | .midiV b0 b1 b2 b3 =>
    if tag = 109 then
      decide (b0 < 256) && decide (b1 < 256) && decide (b2 < 256) && decide (b3 < 256)
    else false
  | _ => false

mutual

/-- A valid typed argument: a scalar `{type, value}` pair or a
(possibly nested) array of valid typed arguments. -/
def validTypedArg : Arg → Bool
  | .typed tag v => validScalar tag v
  | .arrV elems => validTypedArgs elems
  | _ => false

def validTypedArgs : List Arg → Bool
  | [] => true
  | a :: rest => validTypedArg a && validTypedArgs rest

end

/-- Valid OSC address: starts with `/` (47) and is a valid string. -/
def validAddress (addr : Bytes) : Bool :=
  (addr.head? == some 47) && validOscString addr

mutual

/-- A valid packet with typed arguments: a message whose `args` is an
array of valid typed arguments and whose address is valid, or a bundle
whose raw time tag fits in two unsigned 32-bit words and whose elements
are valid. -/
def validPacketB : Packet → Bool
  | .msg addr args =>
    validAddress addr &&
      (match args with
       | .arrV as => validTypedArgs as
       | _ => false)
  | .bundle s f ps => decide (s < 2 ^ 32) && decide (f < 2 ^ 32) && validPacketsB ps

def validPacketsB : List Packet → Bool
  | [] => true
  | p :: rest => validPacketB p && validPacketsB rest

end

/-- Is the value a JS array? -/
def isArrayArg : Arg → Bool
  | .arrV _ => true
  | _ => false

/-- Argument lists whose array arguments contain no nested arrays
(bracket depth at most one). -/
def flatArgs (args : List Arg) : Bool :=
  args.all (fun a =>
    match a with
    | .arrV es => es.all (fun e => !isArrayArg e)
    | _ => true)

mutual

/-- Packets whose messages all have bracket depth at most one. -/
def flatPacketB : Packet → Bool
  | .msg _ args =>
    match args with
    | .arrV as => flatArgs as
    | _ => true
  | .bundle _ _ ps => flatPacketsB ps

def flatPacketsB : List Packet → Bool
  | [] => true
  | p :: rest => flatPacketB p && flatPacketsB rest

end

/-- Payload bytes contributed by a scalar writer (empty on a writer
error; valid arguments never hit the error). -/
def scalarPayload (tag : Nat) (v : Arg) : Bytes :=
  match writeArgValue tag v with
  | .ok data => data
  | .error _ => []

mutual

/-- Spec-level type-tag characters contributed by one argument. -/
def argTag : Arg → List Nat
  | .typed tag _ => [tag]
  | .arrV elems => 91 :: (argTags elems ++ [93])
  | _ => []

def argTags : List Arg → List Nat
  | [] => []
  | a :: r => argTag a ++ argTags r

end

mutual

/-- Spec-level payload bytes contributed by one argument. -/
def argPayload : Arg → Bytes
  | .typed tag v => if noPayloadTag tag then [] else scalarPayload tag v
  | .arrV elems => argPayloads elems
  | _ => []

def argPayloads : List Arg → Bytes
  | [] => []
  | a :: r => argPayload a ++ argPayloads r

end

/-- Spec-level wire form of a message. -/
def encMsg (addr : Bytes) (as : List Arg) : Bytes :=
  writeString addr ++ (writeString (44 :: argTags as) ++ argPayloads as)

/-- The `args` value of a message as the list `osc.collectArguments`
normalizes it to. -/
def argsAsList (args : Arg) : List Arg :=
  match args with
  | .arrV l => l
  | .undefV => []
  | a => [a]

mutual

/-- Spec-level wire form of a packet. -/
def encPacket : Packet → Bytes
  | .msg addr args => encMsg addr (argsAsList args)
  | .bundle s f ps => writeString bundleTag ++ (writeTimeTag s f ++ encPackets ps)

def encPackets : List Packet → Bytes
  | [] => []
  | p :: rest => writeInt32 ((encPacket p).length : Int) ++ (encPacket p ++ encPackets rest)

end

mutual

/-- Every bundle element's encoded size fits the signed 32-bit size
prefix. -/
def sizesOkB : Packet → Bool
  | .msg _ _ => true
  | .bundle _ _ ps => sizesOkListB ps

def sizesOkListB : List Packet → Bool
  | [] => true
  | p :: rest =>
    decide ((encPacket p).length < 2 ^ 31) && sizesOkB p && sizesOkListB rest

end

mutual

/-- Drop the `{type, value}` wrappers: the value a metadata-free decode
returns in place of a typed argument (for valid arguments the bare
reader output is exactly the stored value). -/
def stripMeta : Arg → Arg
  | .typed _ v => v
  | .arrV elems => .arrV (stripMetaList elems)
  | a => a

def stripMetaList : List Arg → List Arg
  | [] => []
  | a :: r => stripMeta a :: stripMetaList r

end

/-- How one decoded argument is represented under the given options. -/
def repArg (metadata : Bool) (a : Arg) : Arg :=
  if metadata then a else stripMeta a

/-- The `args` field `osc.readMessageContents` builds from the decoded
argument list. -/
def decArgsView (options : Opts) (as : List Arg) : Arg :=
  let l := as.map (repArg options.metadata)
  if l.length = 1 ∧ options.unpackSingleArgs = true then l.headD .nullV
  else .arrV l

mutual

/-- The packet value decoding the wire form of `x` produces under the
given options. -/
def decViewPacket (options : Opts) : Packet → Packet
  | .msg addr args => .msg addr (decArgsView options (argsAsList args))
  | .bundle s f ps => .bundle s f (decViewList options ps)

def decViewList (options : Opts) : List Packet → List Packet
  | [] => []
  | p :: r => decViewPacket options p :: decViewList options r

end

mutual

/-- Fuel sufficient for `readPacketF` to decode the wire form of one
packet. -/
def packetFuel : Packet → Nat
  | .msg _ _ => 1
  | .bundle _ _ ps => 1 + packetsFuel ps

def packetsFuel : List Packet → Nat
  | [] => 1
  | p :: rest => 1 + max (packetFuel p) (packetsFuel rest)

end

end osc

-- ## Mutual induction principles for the nested inductives

namespace osc

theorem arg_mutual_induction (P : Arg → Prop) (Q : List Arg → Prop)
    (hnil : Q [])
    (hcons : ∀ a as, P a → Q as → Q (a :: as))
    (htyped : ∀ t v, P v → P (.typed t v))
    (harr : ∀ es, Q es → P (.arrV es))
    (hbase : ∀ a, (∀ t v, a ≠ .typed t v) → (∀ es, a ≠ .arrV es) → P a) :
    (∀ a, P a) ∧ (∀ as, Q as) := by
  have key : ∀ n, (∀ a : Arg, sizeOf a ≤ n → P a) ∧ (∀ as : List Arg, sizeOf as ≤ n → Q as) := by
    intro n
    induction n with
    | zero =>
      constructor
      · intro a ha; exfalso; cases a <;> simp at ha
      · intro as ha; exfalso; cases as <;> simp at ha
    | succ n ih =>
      constructor
      · intro a ha
        cases a with
        | typed t v =>
          refine htyped t v (ih.1 v ?_)
          simp at ha; omega
        | arrV es =>
          refine harr es (ih.2 es ?_)
          simp at ha; omega
        | int32V v => exact hbase _ (by intro t w h; cases h) (by intro es h; cases h)
        | int64V hi lo => exact hbase _ (by intro t w h; cases h) (by intro es h; cases h)
        | float32V b => exact hbase _ (by intro t w h; cases h) (by intro es h; cases h)
        | float64V b => exact hbase _ (by intro t w h; cases h) (by intro es h; cases h)
        | strV s => exact hbase _ (by intro t w h; cases h) (by intro es h; cases h)
        | blobV d => exact hbase _ (by intro t w h; cases h) (by intro es h; cases h)
        | timeTagV s f => exact hbase _ (by intro t w h; cases h) (by intro es h; cases h)
        | boolV b => exact hbase _ (by intro t w h; cases h) (by intro es h; cases h)
        | nullV => exact hbase _ (by intro t w h; cases h) (by intro es h; cases h)
        | charV c => exact hbase _ (by intro t w h; cases h) (by intro es h; cases h)
        | colorV r g b al => exact hbase _ (by intro t w h; cases h) (by intro es h; cases h)
        | midiV b0 b1 b2 b3 => exact hbase _ (by intro t w h; cases h) (by intro es h; cases h)
        | undefV => exact hbase _ (by intro t w h; cases h) (by intro es h; cases h)
      · intro as ha
        cases as with
        | nil => exact hnil
        | cons a rest =>
          simp at ha
          exact hcons a rest (ih.1 a (by omega)) (ih.2 rest (by omega))
  exact ⟨fun a => (key (sizeOf a)).1 a le_rfl, fun as => (key (sizeOf as)).2 as le_rfl⟩

theorem packet_mutual_induction (P : Packet → Prop) (Q : List Packet → Prop)
    (hmsg : ∀ addr args, P (.msg addr args))
    (hbundle : ∀ s f ps, Q ps → P (.bundle s f ps))
    (hnil : Q [])
    (hcons : ∀ p ps, P p → Q ps → Q (p :: ps)) :
    (∀ p, P p) ∧ (∀ ps, Q ps) := by
  have key : ∀ n, (∀ p : Packet, sizeOf p ≤ n → P p)
      ∧ (∀ ps : List Packet, sizeOf ps ≤ n → Q ps) := by
    intro n
    induction n with
    | zero =>
      constructor
      · intro p hp; exfalso; cases p <;> simp at hp
      · intro ps hp; exfalso; cases ps <;> simp at hp
    | succ n ih =>
      constructor
      · intro p hp
        cases p with
        | msg addr args => exact hmsg addr args
        | bundle s f ps =>
          refine hbundle s f ps (ih.2 ps ?_)
          simp at hp; omega
      · intro ps hp
        cases ps with
        | nil => exact hnil
        | cons p rest =>
          simp at hp
          exact hcons p rest (ih.1 p (by omega)) (ih.2 rest (by omega))
  exact ⟨fun p => (key (sizeOf p)).1 p le_rfl, fun ps => (key (sizeOf ps)).2 ps le_rfl⟩

end osc

-- ## Encoder correctness: the collectors produce the spec-level layout

namespace osc

theorem writeInt32_length (v : Int) : (writeInt32 v).length = 4 := by
  simp [writeInt32, beBytes_length]

theorem writeTimeTag_length (s f : Nat) : (writeTimeTag s f).length = 8 := by
  simp [writeTimeTag, writeInt32_length]

theorem writeBlob_length (data : Bytes) :
    (writeBlob data).length = 4 + align4 data.length := by
  have := le_align4 data.length
  simp [writeBlob, writeInt32_length]
  omega

theorem validScalar_known {tag : Nat} {v : Arg} (h : validScalar tag v = true) :
    knownTag tag = true := by
  cases v <;> simp only [validScalar] at h <;>
    (repeat split at h) <;> (simp_all [knownTag]; try omega)

theorem writeArgValue_ok_of_valid {tag : Nat} {v : Arg} (h : validScalar tag v = true)
    (hnp : noPayloadTag tag = false) :
    writeArgValue tag v = .ok (scalarPayload tag v) := by
  cases v <;> simp only [validScalar] at h <;>
    (repeat split at h) <;> simp_all [writeArgValue, scalarPayload, noPayloadTag]

theorem scalarPayload_dvd {tag : Nat} {v : Arg} (h : validScalar tag v = true) :
    4 ∣ (scalarPayload tag v).length := by
  cases v <;> simp only [validScalar] at h <;> (repeat split at h) <;>
    simp_all [scalarPayload, writeArgValue, writeInt32_length, writeTimeTag_length,
      writeBlob_length, writeString_length, beBytes_length, align4_dvd, noPayloadTag] <;>
    decide

theorem argPayload_dvd :
    (∀ a, validTypedArg a = true → 4 ∣ (argPayload a).length)
    ∧ (∀ as, validTypedArgs as = true → 4 ∣ (argPayloads as).length) := by
  apply arg_mutual_induction
  · intro _; simp [argPayloads]
  · intro a as iha ihas h
    simp only [validTypedArgs, Bool.and_eq_true] at h
    simp only [argPayloads, List.length_append]
    exact Dvd.dvd.add (iha h.1) (ihas h.2)
  · intro t v _ h
    simp only [validTypedArg] at h
    simp only [argPayload]
    split
    · simp
    · exact scalarPayload_dvd h
  · intro es ih h
    simp only [validTypedArg] at h
    simpa [argPayload] using ih h
  · intro a h1 h2 hv
    exfalso
    cases a <;> simp [validTypedArg] at hv
    · exact h1 _ _ rfl
    · exact h2 _ rfl

theorem writeArg_spec :
    (∀ a, ∀ dc : DataCollection, validTypedArg a = true →
      ∃ parts, writeArgument a dc
          = .ok (argTag a, ⟨dc.byteLength + (argPayload a).length, dc.parts ++ parts⟩)
        ∧ parts.flatten = argPayload a)
    ∧ (∀ as, ∀ dc : DataCollection, validTypedArgs as = true →
      ∃ parts, writeArgsSeq as dc
          = .ok (argTags as, ⟨dc.byteLength + (argPayloads as).length, dc.parts ++ parts⟩)
        ∧ parts.flatten = argPayloads as) := by
  apply arg_mutual_induction
  · intro dc _
    refine ⟨[], ?_, rfl⟩
    cases dc
    simp [writeArgsSeq, argTags, argPayloads]
  · intro a as iha ihas dc h
    simp only [validTypedArgs, Bool.and_eq_true] at h
    obtain ⟨p1, he1, hf1⟩ := iha dc h.1
    obtain ⟨p2, he2, hf2⟩ :=
      ihas ⟨dc.byteLength + (argPayload a).length, dc.parts ++ p1⟩ h.2
    refine ⟨p1 ++ p2, ?_, by simp [hf1, hf2, argPayloads]⟩
    simp only [writeArgsSeq, he1, he2, argTags, argPayloads]
    simp [List.append_assoc, Nat.add_assoc]
  · intro t v _ dc h
    simp only [validTypedArg] at h
    have hk := validScalar_known h
    by_cases hnp : noPayloadTag t = true
    · refine ⟨[], ?_, by simp [argPayload, hnp]⟩
      cases dc
      simp [writeArgument, hk, hnp, argTag, argPayload]
    · simp only [Bool.not_eq_true] at hnp
      refine ⟨[scalarPayload t v], ?_, by simp [argPayload, hnp]⟩
      simp [writeArgument, hk, hnp, writeArgValue_ok_of_valid h hnp, addDataPart,
        argTag, argPayload]
  · intro es ih dc h
    simp only [validTypedArg] at h
    obtain ⟨parts, he, hf⟩ := ih dc h
    refine ⟨parts, ?_, by simp [hf, argPayload]⟩
    simp [writeArgument, writeArrayArguments, he, argTag, argPayload]
  · intro a h1 h2 dc hv
    exfalso
    cases a <;> simp [validTypedArg] at hv
    · exact h1 _ _ rfl
    · exact h2 _ rfl

end osc

namespace osc

theorem collectArguments_spec (as : List Arg) (u : Bool) (dc : DataCollection)
    (h : validTypedArgs as = true) :
    ∃ parts, collectArguments (.arrV as) ⟨true, u⟩ dc
        = .ok ⟨dc.byteLength + (argPayloads as).length
                 + (writeString (44 :: argTags as)).length,
               dc.parts ++ ([writeString (44 :: argTags as)] ++ parts)⟩
      ∧ parts.flatten = argPayloads as := by
  obtain ⟨parts, he, hf⟩ := writeArg_spec.2 as dc h
  refine ⟨parts, ?_, hf⟩
  simp [collectArguments, he, List.take_left, List.drop_left]

theorem collectMessageParts_spec (addr : Bytes) (as : List Arg) (u : Bool)
    (h : validTypedArgs as = true) :
    ∃ dcm, collectMessageParts addr (.arrV as) ⟨true, u⟩ = .ok dcm
      ∧ dcm.byteLength = (encMsg addr as).length
      ∧ joinParts dcm = encMsg addr as := by
  obtain ⟨parts, he, hf⟩ :=
    collectArguments_spec as u (addDataPart (writeString addr) ⟨0, []⟩) h
  refine ⟨_, by simpa only [collectMessageParts] using he, ?_, ?_⟩
  · simp [addDataPart, encMsg]
    omega
  · simp [joinParts, addDataPart, encMsg, hf]

theorem collectPacket_spec :
    (∀ p, validPacketB p = true → ∀ u : Bool,
      ∃ dcp, (match p with
              | .msg addr args => collectMessageParts addr args ⟨true, u⟩
              | .bundle s f ps => collectBundlePackets s f ps ⟨true, u⟩) = .ok dcp
        ∧ dcp.byteLength = (encPacket p).length
        ∧ joinParts dcp = encPacket p)
    ∧ (∀ ps, validPacketsB ps = true → ∀ (u : Bool) (dc : DataCollection),
      ∃ parts, collectPacketsLoop ps ⟨true, u⟩ dc
          = .ok ⟨dc.byteLength + (encPackets ps).length, dc.parts ++ parts⟩
        ∧ parts.flatten = encPackets ps) := by
  apply packet_mutual_induction
  · intro addr args hv u
    simp only [validPacketB, Bool.and_eq_true] at hv
    obtain ⟨hva, hargs⟩ := hv
    match args, hargs with
    | .arrV as, hargs =>
      obtain ⟨dcm, he, hbl, hj⟩ := collectMessageParts_spec addr as u hargs
      exact ⟨dcm, he, by simp [encPacket, argsAsList, hbl, hj]⟩
  · intro s f ps ih hv u
    simp only [validPacketB, Bool.and_eq_true] at hv
    obtain ⟨parts, he, hf⟩ :=
      ih hv.2 u (addDataPart (writeTimeTag s f) (addDataPart (writeString bundleTag) ⟨0, []⟩))
    have hbt : (writeString bundleTag).length = 8 := by decide
    refine ⟨_, by simpa only [collectBundlePackets] using he, ?_, ?_⟩
    · simp only [addDataPart, encPacket, List.length_append, writeTimeTag_length, hbt]
      omega
    · simp [joinParts, addDataPart, encPacket, hf]
  · intro _ u dc
    refine ⟨[], ?_, rfl⟩
    cases dc
    simp [collectPacketsLoop, encPackets]
  · intro p rest ihp ihrest hv u dc
    simp only [validPacketsB, Bool.and_eq_true] at hv
    obtain ⟨hp, hrest⟩ := hv
    obtain ⟨dcp, hep, hbl, hj⟩ := ihp hp u
    have hstep : collectPacketsLoop (p :: rest) ⟨true, u⟩ dc
        = collectPacketsLoop rest ⟨true, u⟩
            ⟨dc.byteLength + dcp.byteLength + 4,
             dc.parts ++ [writeInt32 (dcp.byteLength : Int)] ++ dcp.parts⟩ := by
      cases p with
      | msg addr args =>
        simp only at hep
        have hne : addr ≠ [] := by
          simp only [validPacketB, Bool.and_eq_true, validAddress, beq_iff_eq,
            Bool.and_eq_true] at hp
          intro hnil
          rw [hnil] at hp
          simp at hp
        simp only [collectPacketsLoop, ne_eq, hne, not_false_eq_true, if_pos, hep,
          addDataPart, writeInt32_length]
      | bundle s f ps =>
        simp only at hep
        simp only [collectPacketsLoop, hep, addDataPart, writeInt32_length]
    obtain ⟨parts2, he2, hf2⟩ :=
      ihrest hrest u ⟨dc.byteLength + dcp.byteLength + 4,
                      dc.parts ++ [writeInt32 (dcp.byteLength : Int)] ++ dcp.parts⟩
    refine ⟨[writeInt32 ((encPacket p).length : Int)] ++ (dcp.parts ++ parts2), ?_, ?_⟩
    · rw [hstep, he2]
      simp only [Except.ok.injEq, DataCollection.mk.injEq]
      constructor
      · simp only [hbl, encPackets, List.length_append, writeInt32_length]
        omega
      · simp only [hbl, List.append_assoc]
    · have hjp : dcp.parts.flatten = encPacket p := hj
      simp only [encPackets, List.flatten_append, List.flatten_cons, List.flatten_nil,
        hf2, hjp, List.append_nil, List.append_assoc]

theorem writePacket_enc (x : Packet) (hx : validPacketB x = true) (u : Bool) :
    writePacket x ⟨true, u⟩ = .ok (encPacket x) := by
  cases x with
  | msg addr args =>
    have hvm : isValidMessage (.msg addr args) = true := by
      simp only [validPacketB, Bool.and_eq_true, validAddress, beq_iff_eq,
        Bool.and_eq_true] at hx
      have h47 := hx.1.1
      have hne : addr ≠ [] := by
        intro hnil
        rw [hnil] at h47
        simp at h47
      simp [isValidMessage, hne, h47]
    obtain ⟨dcp, he, _, hj⟩ := collectPacket_spec.1 (.msg addr args) hx u
    simp only at he
    simp [writePacket, hvm, writeMessage, he, hj, Except.map]
  | bundle s f ps =>
    obtain ⟨dcp, he, _, hj⟩ := collectPacket_spec.1 (.bundle s f ps) hx u
    simp only at he
    simp [writePacket, writeBundle, he, hj, Except.map]

end osc

-- ## Decoder correctness on encoder output: primitive readers

namespace osc

theorem pow_256_4 : (256 : Nat) ^ 4 = 2 ^ 32 := by norm_num

theorem pow_256_8 : (256 : Nat) ^ 8 = 2 ^ 64 := by norm_num

theorem writeInt32_nat (n : Nat) (h : n < 2 ^ 32) :
    writeInt32 (n : Int) = beBytes 4 n := by
  unfold writeInt32
  congr 1
  have h0 : (0 : Int) ≤ (n : Int) := by positivity
  have h1 : (n : Int) < (2 : Int) ^ 32 := by exact_mod_cast h
  rw [Int.emod_eq_of_lt h0 h1]
  simp

theorem getUint32_part (pre post : Bytes) (n : Nat) (h : n < 2 ^ 32) :
    getUint32 (pre ++ (beBytes 4 n ++ post)) pre.length = .ok n := by
  rw [getUint32_append _ _ _ (beBytes_length 4 n),
    beVal_beBytes_of_lt (by rw [pow_256_4]; exact h)]

theorem readInt32_write (pre post : Bytes) (v : Int) (h : int32Range v = true) :
    readInt32 (pre ++ (writeInt32 v ++ post)) pre.length = .ok (v, pre.length + 4) := by
  simp only [int32Range, Bool.and_eq_true, decide_eq_true_eq] at h
  have hm0 : (0 : Int) ≤ v % (2 ^ 32 : Int) := Int.emod_nonneg v (by norm_num)
  have hm1 : v % (2 ^ 32 : Int) < 2 ^ 32 := Int.emod_lt_of_pos v (by norm_num)
  have hlt : (v % (2 ^ 32 : Int)).toNat < 2 ^ 32 := by omega
  unfold readInt32 writeInt32
  rw [getUint32_append _ _ _ (beBytes_length 4 _),
    beVal_beBytes_of_lt (by rw [pow_256_4]; exact hlt)]
  simp only [Except.map]
  congr 2
  unfold toInt32
  have hv := Int.emod_emod_of_dvd v (dvd_refl (2 ^ 32 : Int))
  have hve : v % (2 ^ 32 : Int) = v - 2 ^ 32 * (v / 2 ^ 32) := Int.emod_def v _
  split <;> omega

theorem readTimeTag_write (pre post : Bytes) (s f : Nat)
    (hs : s < 2 ^ 32) (hf : f < 2 ^ 32) :
    readTimeTag (pre ++ (writeTimeTag s f ++ post)) pre.length
      = .ok ((s, f), pre.length + 8) := by
  have e1 : getUint32 (pre ++ (writeTimeTag s f ++ post)) pre.length = .ok s := by
    have ha : pre ++ (writeTimeTag s f ++ post)
        = pre ++ (beBytes 4 s ++ (beBytes 4 f ++ post)) := by
      simp [writeTimeTag, writeInt32_nat s hs, writeInt32_nat f hf, List.append_assoc]
    rw [ha]
    exact getUint32_part pre _ s hs
  have e2 : getUint32 (pre ++ (writeTimeTag s f ++ post)) (pre.length + 4) = .ok f := by
    have ha : pre ++ (writeTimeTag s f ++ post)
        = (pre ++ beBytes 4 s) ++ (beBytes 4 f ++ post) := by
      simp [writeTimeTag, writeInt32_nat s hs, writeInt32_nat f hf, List.append_assoc]
    have hb : pre.length + 4 = (pre ++ beBytes 4 s).length := by
      simp [beBytes_length]
    rw [ha, hb]
    exact getUint32_part _ post f hf
  unfold readTimeTag
  rw [e1, e2]

theorem readBlob_write (pre post : Bytes) (data : Bytes) (h : data.length < 2 ^ 31) :
    readBlob (pre ++ (writeBlob data ++ post)) pre.length
      = .ok (.blobV data, pre.length + (4 + align4 data.length)) := by
  have hle := le_align4 data.length
  have hrange : int32Range (data.length : Int) = true := by
    simp only [int32Range, Bool.and_eq_true, decide_eq_true_eq]
    omega
  have e1 : readInt32 (pre ++ (writeBlob data ++ post)) pre.length
      = .ok ((data.length : Int), pre.length + 4) := by
    have ha : pre ++ (writeBlob data ++ post)
        = pre ++ (writeInt32 (data.length : Int)
            ++ ((data ++ List.replicate (align4 data.length - data.length) 0) ++ post)) := by
      simp [writeBlob, List.append_assoc]
    rw [ha]
    exact readInt32_write pre _ _ hrange
  have hlen : (pre ++ (writeBlob data ++ post)).length
      = pre.length + (4 + align4 data.length) + post.length := by
    simp [writeBlob, writeInt32_length]
    omega
  have hdrop : (pre ++ (writeBlob data ++ post)).drop (pre.length + 4)
      = data ++ (List.replicate (align4 data.length - data.length) 0 ++ post) := by
    have ha : pre ++ (writeBlob data ++ post)
        = (pre ++ writeInt32 (data.length : Int))
            ++ (data ++ (List.replicate (align4 data.length - data.length) 0 ++ post)) := by
      simp [writeBlob, List.append_assoc]
    have hb : pre.length + 4 = (pre ++ writeInt32 (data.length : Int)).length := by
      simp [writeInt32_length]
    rw [ha, hb, List.drop_left]
  unfold readBlob
  simp only [e1, Int.toNat_natCast]
  rw [if_pos (⟨by positivity, by rw [hlen]; omega⟩ :
        (0 : Int) ≤ (data.length : Int)
          ∧ pre.length + 4 + data.length ≤ (pre ++ (writeBlob data ++ post)).length)]
  rw [hdrop, List.take_left]
  simp [Nat.add_assoc]

theorem readChar32_write (pre post : Bytes) (code : Nat) (h : code < 2 ^ 16) :
    readChar32 (pre ++ (beBytes 4 (code % 2 ^ 32) ++ post)) pre.length
      = .ok (.charV code, pre.length + 4) := by
  have hc : code % 2 ^ 32 = code := Nat.mod_eq_of_lt (by omega)
  unfold readChar32
  rw [hc, getUint32_part pre post code (by omega)]
  simp only [Except.map]
  rw [Nat.mod_eq_of_lt h]

theorem getBytes_four (pre post : Bytes) (a b c d : Nat) :
    getBytes (pre ++ ([a, b, c, d] ++ post)) pre.length 4 = .ok [a, b, c, d] :=
  getBytes_append pre [a, b, c, d] post (by simp)

theorem readColor_write (pre post : Bytes) (r g b a : Nat)
    (hr : r < 256) (hg : g < 256) (hb : b < 256) (ha : a < 256) :
    readColor (pre ++ ([r % 256, g % 256, b % 256, a % 256] ++ post)) pre.length
      = .ok (.colorV r g b a, pre.length + 4) := by
  unfold readColor
  rw [getBytes_four]
  simp [Nat.mod_eq_of_lt, hr, hg, hb, ha]

theorem readMIDIBytes_write (pre post : Bytes) (b0 b1 b2 b3 : Nat)
    (h0 : b0 < 256) (h1 : b1 < 256) (h2 : b2 < 256) (h3 : b3 < 256) :
    readMIDIBytes (pre ++ ([b0 % 256, b1 % 256, b2 % 256, b3 % 256] ++ post)) pre.length
      = .ok (.midiV b0 b1 b2 b3, pre.length + 4) := by
  unfold readMIDIBytes
  rw [getBytes_four]
  simp [Nat.mod_eq_of_lt, h0, h1, h2, h3]

theorem readFloat32_write (pre post : Bytes) (bits : Nat) (h : bits < 2 ^ 32) :
    readFloat32 (pre ++ (beBytes 4 bits ++ post)) pre.length
      = .ok (.float32V bits, pre.length + 4) := by
  unfold readFloat32
  rw [getUint32_part pre post bits h]
  rfl

theorem readFloat64_write (pre post : Bytes) (bits : Nat) (h : bits < 2 ^ 64) :
    readFloat64 (pre ++ (beBytes 8 bits ++ post)) pre.length
      = .ok (.float64V bits, pre.length + 8) := by
  unfold readFloat64
  rw [getBytes_append pre _ post (by rw [beBytes_length]),
    List.take_of_length_le (by rw [beBytes_length])]
  simp [Except.map, beVal_beBytes_of_lt (by rw [pow_256_8]; exact h)]

theorem readInt64_write (pre post : Bytes) (hi lo : Int)
    (hhi : int32Range hi = true) (hlo : int32Range lo = true) :
    readInt64 (pre ++ ((writeInt32 hi ++ writeInt32 lo) ++ post)) pre.length
      = .ok (.int64V hi lo, pre.length + 8) := by
  have e1 : readInt32 (pre ++ ((writeInt32 hi ++ writeInt32 lo) ++ post)) pre.length
      = .ok (hi, pre.length + 4) := by
    have ha : pre ++ ((writeInt32 hi ++ writeInt32 lo) ++ post)
        = pre ++ (writeInt32 hi ++ (writeInt32 lo ++ post)) := by simp [List.append_assoc]
    rw [ha]
    exact readInt32_write pre _ hi hhi
  have e2 : readInt32 (pre ++ ((writeInt32 hi ++ writeInt32 lo) ++ post)) (pre.length + 4)
      = .ok (lo, pre.length + 8) := by
    have ha : pre ++ ((writeInt32 hi ++ writeInt32 lo) ++ post)
        = (pre ++ writeInt32 hi) ++ (writeInt32 lo ++ post) := by simp [List.append_assoc]
    have hb : pre.length + 4 = (pre ++ writeInt32 hi).length := by
      simp [writeInt32_length]
    have hc : pre.length + 8 = (pre ++ writeInt32 hi).length + 4 := by
      simp [writeInt32_length]
    rw [ha, hb, hc]
    exact readInt32_write _ _ lo hlo
  unfold readInt64
  simp only [e1, e2]

theorem readString_arg (pre post : Bytes) (s : Bytes) (hpre : 4 ∣ pre.length)
    (hs : ∀ b ∈ s, b ≠ 0) :
    readString (pre ++ (writeString s ++ post)) pre.length
      = (s, pre.length + (writeString s).length) :=
  readString_writeString pre s post hpre hs

end osc

namespace osc

theorem readArgument_enc (tag : Nat) (v : Arg) (options : Opts) (pre post : Bytes)
    (hv : validScalar tag v = true) (hpre : 4 ∣ pre.length) :
    readArgument tag (pre ++ (argPayload (.typed tag v) ++ post)) options pre.length
      = .ok (if options.metadata then .typed tag v else v,
             pre.length + (argPayload (.typed tag v)).length) := by
  cases v with
  | int32V n =>
    simp only [validScalar] at hv
    split at hv
    · rename_i h105
      subst h105
      have hp : argPayload (.typed 105 (.int32V n)) = writeInt32 n := rfl
      rw [hp]
      simp [readArgument, readInt32_write pre post n hv, writeInt32_length, Except.map]
    · split at hv
      · rename_i h73
        subst h73
        have hn : n = 1 := by simpa using hv
        subst hn
        have hp : argPayload (.typed 73 (.int32V 1)) = [] := rfl
        rw [hp]
        simp [readArgument]
      · simp at hv
  | int64V hi lo =>
    simp only [validScalar] at hv
    split at hv
    · rename_i h104
      subst h104
      simp only [Bool.and_eq_true] at hv
      have hp : argPayload (.typed 104 (.int64V hi lo)) = writeInt32 hi ++ writeInt32 lo := rfl
      rw [hp]
      simp only [readArgument]
      rw [readInt64_write pre post hi lo hv.1 hv.2]
      simp [writeInt32_length]
    · simp at hv
  | float32V bits =>
    simp only [validScalar] at hv
    split at hv
    · rename_i h102
      subst h102
      have hb : bits < 2 ^ 32 := by simpa using hv
      have hp : argPayload (.typed 102 (.float32V bits)) = beBytes 4 bits := rfl
      rw [hp]
      simp [readArgument, readFloat32_write pre post bits hb, beBytes_length]
    · simp at hv
  | float64V bits =>
    simp only [validScalar] at hv
    split at hv
    · rename_i h100
      subst h100
      have hb : bits < 2 ^ 64 := by simpa using hv
      have hp : argPayload (.typed 100 (.float64V bits)) = beBytes 8 bits := rfl
      rw [hp]
      simp [readArgument, readFloat64_write pre post bits hb, beBytes_length]
    · simp at hv
  | strV s =>
    simp only [validScalar] at hv
    split at hv
    · rename_i hts
      have hs : ∀ b ∈ s, b ≠ 0 := by
        simp only [validOscString, Bool.and_eq_true, List.all_eq_true] at hv
        intro b hb
        have := hv.1 b hb
        simpa using this.1
      rcases hts with h115 | h83
      · subst h115
        have hp : argPayload (.typed 115 (.strV s)) = writeString s := rfl
        rw [hp]
        simp [readArgument, readString_arg pre post s hpre hs]
      · subst h83
        have hp : argPayload (.typed 83 (.strV s)) = writeString s := rfl
        rw [hp]
        simp [readArgument, readString_arg pre post s hpre hs]
    · simp at hv
  | blobV data =>
    simp only [validScalar] at hv
    split at hv
    · rename_i h98
      subst h98
      simp only [Bool.and_eq_true, decide_eq_true_eq] at hv
      have hp : argPayload (.typed 98 (.blobV data)) = writeBlob data := rfl
      rw [hp]
      simp [readArgument, readBlob_write pre post data hv.2, writeBlob_length]
    · simp at hv
  | timeTagV s f =>
    simp only [validScalar] at hv
    split at hv
    · rename_i h116
      subst h116
      simp only [Bool.and_eq_true, decide_eq_true_eq] at hv
      have hp : argPayload (.typed 116 (.timeTagV s f)) = writeTimeTag s f := rfl
      rw [hp]
      simp [readArgument, readTimeTag_write pre post s f hv.1 hv.2, writeTimeTag_length,
        Except.map]
    · simp at hv
  | boolV b =>
    simp only [validScalar] at hv
    split at hv
    · rename_i h84
      subst h84
      have hb : b = true := hv
      subst hb
      have hp : argPayload (.typed 84 (.boolV true)) = [] := rfl
      rw [hp]
      simp [readArgument]
    · split at hv
      · rename_i h70
        subst h70
        have hb : b = false := by simpa using hv
        subst hb
        have hp : argPayload (.typed 70 (.boolV false)) = [] := rfl
        rw [hp]
        simp [readArgument]
      · simp at hv
  | nullV =>
    simp only [validScalar, decide_eq_true_eq] at hv
    subst hv
    have hp : argPayload (.typed 78 .nullV) = [] := rfl
    rw [hp]
    simp [readArgument]
  | charV code =>
    simp only [validScalar] at hv
    split at hv
    · rename_i h99
      subst h99
      have hc : code < 2 ^ 16 := by simpa using hv
      have hp : argPayload (.typed 99 (.charV code)) = beBytes 4 (code % 2 ^ 32) := rfl
      rw [hp]
      simp only [readArgument]
      rw [readChar32_write pre post code hc]
      simp [beBytes_length]
    · simp at hv
  | colorV r g b a =>
    simp only [validScalar] at hv
    split at hv
    · rename_i h114
      subst h114
      simp only [Bool.and_eq_true, decide_eq_true_eq] at hv
      have hp : argPayload (.typed 114 (.colorV r g b a))
          = [r % 256, g % 256, b % 256, a % 256] := rfl
      rw [hp]
      simp only [readArgument]
      rw [readColor_write pre post r g b a hv.1.1.1 hv.1.1.2 hv.1.2 hv.2]
      simp
    · simp at hv
  | midiV b0 b1 b2 b3 =>
    simp only [validScalar] at hv
    split at hv
    · rename_i h109
      subst h109
      simp only [Bool.and_eq_true, decide_eq_true_eq] at hv
      have hp : argPayload (.typed 109 (.midiV b0 b1 b2 b3))
          = [b0 % 256, b1 % 256, b2 % 256, b3 % 256] := rfl
      rw [hp]
      simp only [readArgument]
      rw [readMIDIBytes_write pre post b0 b1 b2 b3 hv.1.1.1 hv.1.1.2 hv.1.2 hv.2]
      simp
    · simp at hv
  | typed t w => simp [validScalar] at hv
  | arrV es => simp [validScalar] at hv
  | undefV => simp [validScalar] at hv

end osc

namespace osc
theorem knownTag_ne {t : Nat} (h : knownTag t = true) :
    t ≠ 0 ∧ t ≠ 91 ∧ t ≠ 93 ∧ t ≠ 44 := by
  simp only [knownTag, decide_eq_true_eq] at h
  omega

theorem stripMetaList_map (as : List Arg) : stripMetaList as = as.map stripMeta := by
  induction as with
  | nil => rfl
  | cons a as ih => simp [stripMetaList, ih]

theorem repArg_arr (m : Bool) (es : List Arg) :
    repArg m (.arrV es) = .arrV (es.map (repArg m)) := by
  cases m with
  | true =>
    have h : repArg true = id := funext fun a => rfl
    simp [h]
  | false => simp [repArg, stripMeta, stripMetaList_map]

theorem findIdx?_first_93 (l r : List Nat) (hl : ∀ b ∈ l, b ≠ 93) :
    (l ++ 93 :: r).findIdx? (fun x => x = 93) = some l.length := by
  induction l with
  | nil => simp [List.findIdx?_cons]
  | cons b bs ih =>
    have hb : b ≠ 93 := hl b (by simp)
    simp only [List.cons_append, List.findIdx?_cons, decide_eq_true_eq]
    rw [if_neg hb, List.findIdx?_succ, ih (fun x hx => hl x (by simp [hx]))]
    simp

theorem validTypedArg_not_array_typed {a : Arg} (hv : validTypedArg a = true)
    (hna : isArrayArg a = false) : ∃ t v, a = .typed t v ∧ validScalar t v = true := by
  cases a <;> first
    | exact ⟨_, _, rfl, by simpa [validTypedArg] using hv⟩
    | simp_all [validTypedArg, isArrayArg]

theorem argTags_scalar_no_93 (es : List Arg) (hv : validTypedArgs es = true)
    (hflat : ∀ e ∈ es, isArrayArg e = false) :
    ∀ b ∈ argTags es, b ≠ 93 := by
  induction es with
  | nil => simp [argTags]
  | cons e es ih =>
    simp only [validTypedArgs, Bool.and_eq_true] at hv
    obtain ⟨t, v, rfl, hsv⟩ :=
      validTypedArg_not_array_typed hv.1 (hflat e (by simp))
    intro b hb
    simp only [argTags, argTag, List.mem_append, List.mem_singleton] at hb
    rcases hb with h | h
    · subst h
      exact (knownTag_ne (validScalar_known hsv)).2.2.1
    · exact ih hv.2 (fun x hx => hflat x (by simp [hx])) b h

theorem readArgsLoop_scalars (es : List Arg) :
    validTypedArgs es = true →
    (∀ e ∈ es, isArrayArg e = false) →
    ∀ (restTags : List Nat) (options : Opts) (pre post : Bytes), 4 ∣ pre.length →
    readArgsLoop (argTags es ++ restTags) (pre ++ (argPayloads es ++ post)) options pre.length
      = (match readArgsLoop restTags (pre ++ (argPayloads es ++ post)) options
               (pre.length + (argPayloads es).length) with
         | .error e => .error e
         | .ok (l, i) => .ok (es.map (repArg options.metadata) ++ l, i)) := by
  induction es with
  | nil =>
    intro _ _ restTags options pre post _
    simp only [argTags, argPayloads, List.nil_append, List.length_nil, Nat.add_zero,
      List.map_nil]
    cases hres : readArgsLoop restTags (pre ++ post) options pre.length with
    | error e => rfl
    | ok p =>
      obtain ⟨l, i⟩ := p
      rfl
  | cons e es ih =>
    intro hv hflat restTags options pre post hpre
    simp only [validTypedArgs, Bool.and_eq_true] at hv
    obtain ⟨t, v, rfl, hsv⟩ :=
      validTypedArg_not_array_typed hv.1 (hflat e (by simp))
    have ht := knownTag_ne (validScalar_known hsv)
    have hdvd : 4 ∣ (argPayload (.typed t v)).length :=
      argPayload_dvd.1 _ (by simpa [validTypedArg] using hsv)
    have hassoc1 : pre ++ (argPayloads (.typed t v :: es) ++ post)
        = pre ++ (argPayload (.typed t v) ++ (argPayloads es ++ post)) := by
      simp [argPayloads, List.append_assoc]
    have hassoc2 : pre ++ (argPayload (.typed t v) ++ (argPayloads es ++ post))
        = (pre ++ argPayload (.typed t v)) ++ (argPayloads es ++ post) := by
      simp [List.append_assoc]
    have hlen2 : pre.length + (argPayload (.typed t v)).length
        = (pre ++ argPayload (.typed t v)).length := by simp
    have hidx : pre.length + (argPayloads (.typed t v :: es)).length
        = (pre ++ argPayload (.typed t v)).length + (argPayloads es).length := by
      simp [argPayloads]
      omega
    have hargread := readArgument_enc t v options pre (argPayloads es ++ post) hsv hpre
    have ihh := ih hv.2 (fun x hx => hflat x (by simp [hx])) restTags options
      (pre ++ argPayload (.typed t v)) post
      (by rw [List.length_append]; exact Dvd.dvd.add hpre hdvd)
    rw [hassoc1]
    have htags : argTags (.typed t v :: es) ++ restTags
        = t :: (argTags es ++ restTags) := by simp [argTags, argTag]
    rw [htags]
    simp only [readArgsLoop]
    rw [if_neg ht.2.1]
    simp only [hargread]
    rw [hassoc2, hlen2, ihh, hidx]
    cases hres : readArgsLoop restTags
        ((pre ++ argPayload (.typed t v)) ++ (argPayloads es ++ post)) options
        ((pre ++ argPayload (.typed t v)).length + (argPayloads es).length) with
    | error e => rfl
    | ok p =>
      obtain ⟨l, i⟩ := p
      simp [repArg, stripMeta]

end osc

namespace osc

theorem readArgsLoop_enc (as : List Arg) :
    validTypedArgs as = true →
    flatArgs as = true →
    ∀ (restTags : List Nat) (options : Opts) (pre post : Bytes), 4 ∣ pre.length →
    readArgsLoop (argTags as ++ restTags) (pre ++ (argPayloads as ++ post)) options pre.length
      = (match readArgsLoop restTags (pre ++ (argPayloads as ++ post)) options
               (pre.length + (argPayloads as).length) with
         | .error e => .error e
         | .ok (l, i) => .ok (as.map (repArg options.metadata) ++ l, i)) := by
  induction as with
  | nil =>
    intro _ _ restTags options pre post _
    simp only [argTags, argPayloads, List.nil_append, List.length_nil, Nat.add_zero,
      List.map_nil]
    cases hres : readArgsLoop restTags (pre ++ post) options pre.length with
    | error e => rfl
    | ok p =>
      obtain ⟨l, i⟩ := p
      rfl
  | cons a as ih =>
    intro hv hflat restTags options pre post hpre
    simp only [validTypedArgs, Bool.and_eq_true] at hv
    simp only [flatArgs, List.all_cons, Bool.and_eq_true] at hflat
    have hflat2 : flatArgs as = true := hflat.2
    cases a with
    | arrV es =>
      have hes_flat : ∀ e ∈ es, isArrayArg e = false := by
        have := hflat.1
        simp only [List.all_eq_true] at this
        intro e he
        have h2 := this e he
        simpa using h2
      have hes_valid : validTypedArgs es = true := by
        simpa [validTypedArg] using hv.1
      have hdvd : 4 ∣ (argPayloads es).length := argPayload_dvd.2 es hes_valid
      have hassoc1 : pre ++ (argPayloads (.arrV es :: as) ++ post)
          = pre ++ (argPayloads es ++ (argPayloads as ++ post)) := by
        simp [argPayloads, argPayload, List.append_assoc]
      have htags : argTags (.arrV es :: as) ++ restTags
          = 91 :: ((argTags es ++ [93]) ++ (argTags as ++ restTags)) := by
        simp [argTags, argTag, List.append_assoc]
      have hfind : ((argTags es ++ [93]) ++ (argTags as ++ restTags)).findIdx?
            (fun x => x = 93) = some (argTags es).length := by
        have hre : (argTags es ++ [93]) ++ (argTags as ++ restTags)
            = argTags es ++ (93 :: (argTags as ++ restTags)) := by
          simp [List.append_assoc]
        rw [hre]
        exact findIdx?_first_93 _ _ (argTags_scalar_no_93 es hes_valid hes_flat)
      have htake : ((argTags es ++ [93]) ++ (argTags as ++ restTags)).take
            (argTags es).length = argTags es := by
        have hre : (argTags es ++ [93]) ++ (argTags as ++ restTags)
            = argTags es ++ ([93] ++ (argTags as ++ restTags)) := by
          simp [List.append_assoc]
        rw [hre, List.take_append_of_le_length le_rfl, List.take_length]
      have hdrop : ((argTags es ++ [93]) ++ (argTags as ++ restTags)).drop
            ((argTags es).length + 1) = argTags as ++ restTags := by
        have hlen : (argTags es).length + 1 = (argTags es ++ [93]).length := by simp
        rw [hlen, List.drop_left]
      have hinner := readArgsLoop_scalars es hes_valid hes_flat [] options pre
        (argPayloads as ++ post) hpre
      have hihh := ih hv.2 hflat2 restTags options (pre ++ argPayloads es) post
        (by rw [List.length_append]; exact Dvd.dvd.add hpre hdvd)
      have hassoc2 : pre ++ (argPayloads es ++ (argPayloads as ++ post))
          = (pre ++ argPayloads es) ++ (argPayloads as ++ post) := by
        simp [List.append_assoc]
      have hlen2 : pre.length + (argPayloads es).length
          = (pre ++ argPayloads es).length := by simp
      have hidx : pre.length + (argPayloads (.arrV es :: as)).length
          = (pre ++ argPayloads es).length + (argPayloads as).length := by
        simp [argPayloads, argPayload]
        omega
      rw [hassoc1, htags]
      simp only [readArgsLoop]
      rw [hfind]
      simp only [htake, hdrop]
      have hempty : readArgsLoop ([] : List Nat) (pre ++ (argPayloads es
          ++ (argPayloads as ++ post))) options (pre.length + (argPayloads es).length)
          = .ok ([], pre.length + (argPayloads es).length) := by
        simp [readArgsLoop]
      rw [List.append_nil] at hinner
      have hinner2 : readArgsLoop (argTags es)
          (pre ++ (argPayloads es ++ (argPayloads as ++ post))) options pre.length
          = .ok (es.map (repArg options.metadata), pre.length + (argPayloads es).length) := by
        rw [hinner, hempty]
        simp
      simp only [hinner2]
      rw [hassoc2, hlen2, hihh, hidx]
      cases hres : readArgsLoop restTags
          ((pre ++ argPayloads es) ++ (argPayloads as ++ post)) options
          ((pre ++ argPayloads es).length + (argPayloads as).length) with
      | error e => rfl
      | ok p =>
        obtain ⟨l, i⟩ := p
        simp [repArg_arr]
    | typed t v =>
      have hsv : validScalar t v = true := by simpa [validTypedArg] using hv.1
      have ht := knownTag_ne (validScalar_known hsv)
      have hdvd : 4 ∣ (argPayload (.typed t v)).length :=
        argPayload_dvd.1 _ (by simpa [validTypedArg] using hsv)
      have hassoc1 : pre ++ (argPayloads (.typed t v :: as) ++ post)
          = pre ++ (argPayload (.typed t v) ++ (argPayloads as ++ post)) := by
        simp [argPayloads, List.append_assoc]
      have hassoc2 : pre ++ (argPayload (.typed t v) ++ (argPayloads as ++ post))
          = (pre ++ argPayload (.typed t v)) ++ (argPayloads as ++ post) := by
        simp [List.append_assoc]
      have hlen2 : pre.length + (argPayload (.typed t v)).length
          = (pre ++ argPayload (.typed t v)).length := by simp
      have hidx : pre.length + (argPayloads (.typed t v :: as)).length
          = (pre ++ argPayload (.typed t v)).length + (argPayloads as).length := by
        simp [argPayloads]
        omega
      have hargread := readArgument_enc t v options pre (argPayloads as ++ post) hsv hpre
      have ihh := ih hv.2 hflat2 restTags options (pre ++ argPayload (.typed t v)) post
        (by rw [List.length_append]; exact Dvd.dvd.add hpre hdvd)
      rw [hassoc1]
      have htags : argTags (.typed t v :: as) ++ restTags
          = t :: (argTags as ++ restTags) := by simp [argTags, argTag]
      rw [htags]
      simp only [readArgsLoop]
      rw [if_neg ht.2.1]
      simp only [hargread]
      rw [hassoc2, hlen2, ihh, hidx]
      cases hres : readArgsLoop restTags
          ((pre ++ argPayload (.typed t v)) ++ (argPayloads as ++ post)) options
          ((pre ++ argPayload (.typed t v)).length + (argPayloads as).length) with
      | error e => rfl
      | ok p =>
        obtain ⟨l, i⟩ := p
        simp [repArg, stripMeta]
    | int32V n => simp [validTypedArg] at hv
    | int64V hi lo => simp [validTypedArg] at hv
    | float32V b => simp [validTypedArg] at hv
    | float64V b => simp [validTypedArg] at hv
    | strV s => simp [validTypedArg] at hv
    | blobV d => simp [validTypedArg] at hv
    | timeTagV s f => simp [validTypedArg] at hv
    | boolV b => simp [validTypedArg] at hv
    | nullV => simp [validTypedArg] at hv
    | charV c => simp [validTypedArg] at hv
    | colorV r g b al => simp [validTypedArg] at hv
    | midiV b0 b1 b2 b3 => simp [validTypedArg] at hv
    | undefV => simp [validTypedArg] at hv

end osc

namespace osc

theorem argTags_nonzero :
    (∀ a, validTypedArg a = true → ∀ b ∈ argTag a, b ≠ 0)
    ∧ (∀ as, validTypedArgs as = true → ∀ b ∈ argTags as, b ≠ 0) := by
  apply arg_mutual_induction
  · intro _
    simp [argTags]
  · intro a as iha ihas h
    simp only [validTypedArgs, Bool.and_eq_true] at h
    intro b hb
    simp only [argTags, List.mem_append] at hb
    rcases hb with hb | hb
    · exact iha h.1 b hb
    · exact ihas h.2 b hb
  · intro t v _ h
    simp only [validTypedArg] at h
    intro b hb
    simp only [argTag, List.mem_singleton] at hb
    subst hb
    exact (knownTag_ne (validScalar_known h)).1
  · intro es ih h
    simp only [validTypedArg] at h
    intro b hb
    simp only [argTag, List.mem_cons, List.mem_append, List.mem_singleton] at hb
    rcases hb with hb | hb | hb
    · subst hb; decide
    · exact ih h b hb
    · simp at hb; subst hb; decide
  · intro a h1 h2 hv
    exfalso
    cases a <;> simp [validTypedArg] at hv
    · exact h1 _ _ rfl
    · exact h2 _ rfl

theorem encPacket_dvd :
    (∀ x, validPacketB x = true → 4 ∣ (encPacket x).length)
    ∧ (∀ ps, validPacketsB ps = true → 4 ∣ (encPackets ps).length) := by
  apply packet_mutual_induction
  · intro addr args hv
    simp only [validPacketB, Bool.and_eq_true] at hv
    match args, hv.2 with
    | .arrV as, hargs =>
      have d1 : 4 ∣ (writeString addr).length := by
        rw [writeString_length]; exact align4_dvd _
      have d2 : 4 ∣ (writeString (44 :: argTags as)).length := by
        rw [writeString_length]; exact align4_dvd _
      have d3 := argPayload_dvd.2 as hargs
      simp only [encPacket, argsAsList, encMsg, List.length_append]
      omega
  · intro s f ps ih hv
    simp only [validPacketB, Bool.and_eq_true] at hv
    have hbt : (writeString bundleTag).length = 8 := by decide
    have d := ih hv.2
    simp only [encPacket, List.length_append, writeTimeTag_length, hbt]
    omega
  · intro _
    simp [encPackets]
  · intro p ps ihp ihps hv
    simp only [validPacketsB, Bool.and_eq_true] at hv
    have d1 := ihp hv.1
    have d2 := ihps hv.2
    simp only [encPackets, List.length_append, writeInt32_length]
    omega

theorem readArguments_enc (as : List Arg) (hv : validTypedArgs as = true)
    (hflat : flatArgs as = true) (options : Opts) (pre post : Bytes)
    (hpre : 4 ∣ pre.length) :
    readArguments (pre ++ ((writeString (44 :: argTags as) ++ argPayloads as) ++ post))
        options pre.length
      = .ok (as.map (repArg options.metadata),
             pre.length + (writeString (44 :: argTags as)).length
               + (argPayloads as).length) := by
  have htagsne : ∀ b ∈ (44 :: argTags as), b ≠ 0 := by
    intro b hb
    simp only [List.mem_cons] at hb
    rcases hb with hb | hb
    · omega
    · exact argTags_nonzero.2 as hv b hb
  have hassoc : pre ++ ((writeString (44 :: argTags as) ++ argPayloads as) ++ post)
      = pre ++ (writeString (44 :: argTags as) ++ (argPayloads as ++ post)) := by
    simp [List.append_assoc]
  have hread := readString_arg pre (argPayloads as ++ post) (44 :: argTags as) hpre htagsne
  unfold readArguments
  rw [hassoc, hread]
  simp only
  have hassoc2 : pre ++ (writeString (44 :: argTags as) ++ (argPayloads as ++ post))
      = (pre ++ writeString (44 :: argTags as)) ++ (argPayloads as ++ post) := by
    simp [List.append_assoc]
  have hlen2 : pre.length + (writeString (44 :: argTags as)).length
      = (pre ++ writeString (44 :: argTags as)).length := by simp
  have hloop := readArgsLoop_enc as hv hflat [] options
    (pre ++ writeString (44 :: argTags as)) post
    (by rw [List.length_append, writeString_length]
        exact Dvd.dvd.add hpre (align4_dvd _))
  rw [List.append_nil] at hloop
  have hempty : readArgsLoop ([] : List Nat)
      ((pre ++ writeString (44 :: argTags as)) ++ (argPayloads as ++ post)) options
      ((pre ++ writeString (44 :: argTags as)).length + (argPayloads as).length)
      = .ok ([], (pre ++ writeString (44 :: argTags as)).length
          + (argPayloads as).length) := by
    simp [readArgsLoop]
  rw [hassoc2, hlen2, hloop, hempty]
  simp

end osc

namespace osc

theorem validOscString_ne {s : Bytes} (h : validOscString s = true) :
    ∀ b ∈ s, b ≠ 0 := by
  simp only [validOscString, Bool.and_eq_true, List.all_eq_true] at h
  intro b hb
  have := h.1 b hb
  simp only [Bool.and_eq_true, decide_eq_true_eq] at this
  exact this.1

theorem writeString_bundleTag_length : (writeString bundleTag).length = 8 := by decide

theorem readPacket_main :
    (∀ x, validPacketB x = true → flatPacketB x = true → sizesOkB x = true →
      ∀ fuel, packetFuel x ≤ fuel → ∀ (options : Opts) (pre post : Bytes), 4 ∣ pre.length →
      readPacketF fuel (pre ++ (encPacket x ++ post)) options pre.length
          ((pre.length : Int) + ((encPacket x).length : Int))
        = .ok (decViewPacket options x, pre.length + (encPacket x).length))
    ∧ (∀ ps, validPacketsB ps = true → flatPacketsB ps = true → sizesOkListB ps = true →
      ∀ fuel, packetsFuel ps ≤ fuel → ∀ (options : Opts) (pre post : Bytes), 4 ∣ pre.length →
      readBundleLoop fuel (pre ++ (encPackets ps ++ post)) options pre.length
          ((pre.length : Int) + ((encPackets ps).length : Int))
        = .ok (decViewList options ps, pre.length + (encPackets ps).length)) := by
  apply packet_mutual_induction
  · -- message
    intro addr args hv hflat _ fuel hfuel options pre post hpre
    cases fuel with
    | zero => simp [packetFuel] at hfuel
    | succ fuel' =>
      simp only [validPacketB, Bool.and_eq_true] at hv
      match args, hv.2 with
      | .arrV as, hargs =>
        simp only [validAddress, Bool.and_eq_true, beq_iff_eq] at hv
        have h47 : addr.head? = some 47 := hv.1.1
        have haddr_ne : ∀ b ∈ addr, b ≠ 0 := validOscString_ne hv.1.2
        have hflat2 : flatArgs as = true := by
          simpa [flatPacketB] using hflat
        have hassoc : pre ++ (encPacket (.msg addr (.arrV as)) ++ post)
            = pre ++ (writeString addr
                ++ ((writeString (44 :: argTags as) ++ argPayloads as) ++ post)) := by
          simp [encPacket, argsAsList, encMsg, List.append_assoc]
        have hread := readString_arg pre
          ((writeString (44 :: argTags as) ++ argPayloads as) ++ post) addr hpre haddr_ne
        simp only [readPacketF]
        rw [hassoc, hread]
        simp only
        rw [if_neg (by rw [h47]; decide), if_pos h47]
        unfold readMessageContents
        rw [if_pos h47]
        have hassoc2 : pre ++ (writeString addr
              ++ ((writeString (44 :: argTags as) ++ argPayloads as) ++ post))
            = (pre ++ writeString addr)
              ++ ((writeString (44 :: argTags as) ++ argPayloads as) ++ post) := by
          simp [List.append_assoc]
        have hlen1 : pre.length + (writeString addr).length
            = (pre ++ writeString addr).length := by simp
        have hargs_read := readArguments_enc as hargs hflat2 options
          (pre ++ writeString addr) post
          (by rw [List.length_append, writeString_length]
              exact Dvd.dvd.add hpre (align4_dvd _))
        rw [hassoc2, hlen1]
        simp only [hargs_read]
        simp only [Except.ok.injEq, Prod.mk.injEq]
        constructor
        · simp [decViewPacket, decArgsView, argsAsList]
        · simp [encPacket, argsAsList, encMsg]
          omega
  · -- bundle
    intro s f ps ih hv hflat hsz fuel hfuel options pre post hpre
    cases fuel with
    | zero => simp [packetFuel] at hfuel
    | succ fuel' =>
      simp only [validPacketB, Bool.and_eq_true, decide_eq_true_eq] at hv
      obtain ⟨⟨hs, hf⟩, hps⟩ := hv
      have hflat2 : flatPacketsB ps = true := by simpa [flatPacketB] using hflat
      have hsz2 : sizesOkListB ps = true := by simpa [sizesOkB] using hsz
      have hfuel2 : packetsFuel ps ≤ fuel' := by
        simp only [packetFuel] at hfuel
        omega
      have hbt_ne : ∀ b ∈ bundleTag, b ≠ 0 := by decide
      have hassoc : pre ++ (encPacket (.bundle s f ps) ++ post)
          = pre ++ (writeString bundleTag
              ++ ((writeTimeTag s f ++ encPackets ps) ++ post)) := by
        simp [encPacket, List.append_assoc]
      have hread := readString_arg pre ((writeTimeTag s f ++ encPackets ps) ++ post)
        bundleTag hpre hbt_ne
      simp only [readPacketF]
      rw [hassoc, hread]
      simp only
      rw [if_pos (by decide)]
      have hassoc2 : pre ++ (writeString bundleTag
            ++ ((writeTimeTag s f ++ encPackets ps) ++ post))
          = (pre ++ writeString bundleTag) ++ (writeTimeTag s f ++ (encPackets ps ++ post)) := by
        simp [List.append_assoc]
      have hlen1 : pre.length + (writeString bundleTag).length
          = (pre ++ writeString bundleTag).length := by simp
      have htt := readTimeTag_write (pre ++ writeString bundleTag)
        (encPackets ps ++ post) s f hs hf
      rw [hassoc2, hlen1]
      simp only [htt]
      have hassoc3 : (pre ++ writeString bundleTag) ++ (writeTimeTag s f ++ (encPackets ps ++ post))
          = ((pre ++ writeString bundleTag) ++ writeTimeTag s f) ++ (encPackets ps ++ post) := by
        simp [List.append_assoc]
      have hlen2 : (pre ++ writeString bundleTag).length + 8
          = ((pre ++ writeString bundleTag) ++ writeTimeTag s f).length := by
        simp [writeTimeTag_length]
        omega
      have hcast : (pre.length : Int) + ((encPacket (.bundle s f ps)).length : Int)
          = ((((pre ++ writeString bundleTag) ++ writeTimeTag s f).length : Int)
              + ((encPackets ps).length : Int)) := by
        simp [encPacket, writeTimeTag_length, writeString_bundleTag_length]
        ring
      have hloop := ih hps hflat2 hsz2 fuel' hfuel2 options
        ((pre ++ writeString bundleTag) ++ writeTimeTag s f) post
        (by simp only [List.length_append, writeTimeTag_length, writeString_bundleTag_length]
            omega)
      rw [hassoc3, hlen2, hcast, hloop]
      simp only [Except.ok.injEq, Prod.mk.injEq]
      constructor
      · simp [decViewPacket]
      · simp [encPacket, writeTimeTag_length, writeString_bundleTag_length]
        omega
  · -- empty packet list
    intro _ _ _ fuel hfuel options pre post _
    cases fuel with
    | zero => simp [packetsFuel] at hfuel
    | succ fuel' =>
      simp only [readBundleLoop, encPackets]
      rw [if_neg (by simp)]
      simp [decViewList]
  · -- packet list cons
    intro p rest ihp ihrest hv hflat hsz fuel hfuel options pre post hpre
    cases fuel with
    | zero => simp [packetsFuel] at hfuel
    | succ fuel' =>
      simp only [validPacketsB, Bool.and_eq_true] at hv
      simp only [flatPacketsB, Bool.and_eq_true] at hflat
      simp only [sizesOkListB, Bool.and_eq_true, decide_eq_true_eq] at hsz
      obtain ⟨⟨hszlen, hszp⟩, hszrest⟩ := hsz
      have hfp : packetFuel p ≤ fuel' := by
        simp only [packetsFuel] at hfuel
        have := le_max_left (packetFuel p) (packetsFuel rest)
        omega
      have hfr : packetsFuel rest ≤ fuel' := by
        simp only [packetsFuel] at hfuel
        have := le_max_right (packetFuel p) (packetsFuel rest)
        omega
      have hirange : int32Range ((encPacket p).length : Int) = true := by
        simp only [int32Range, Bool.and_eq_true, decide_eq_true_eq]
        omega
      have hassoc : pre ++ (encPackets (p :: rest) ++ post)
          = pre ++ (writeInt32 ((encPacket p).length : Int)
              ++ ((encPacket p ++ encPackets rest) ++ post)) := by
        simp [encPackets, List.append_assoc]
      have hpos : (pre.length : Int) < (pre.length : Int) + ((encPackets (p :: rest)).length : Int) := by
        have h4 : 0 < (encPackets (p :: rest)).length := by
          simp [encPackets, writeInt32_length]
        omega
      simp only [readBundleLoop]
      rw [if_pos hpos, hassoc]
      simp only [readInt32_write pre ((encPacket p ++ encPackets rest) ++ post)
        ((encPacket p).length : Int) hirange]
      have hassoc2 : pre ++ (writeInt32 ((encPacket p).length : Int)
            ++ ((encPacket p ++ encPackets rest) ++ post))
          = (pre ++ writeInt32 ((encPacket p).length : Int))
              ++ (encPacket p ++ (encPackets rest ++ post)) := by
        simp [List.append_assoc]
      have hlen1 : pre.length + 4
          = (pre ++ writeInt32 ((encPacket p).length : Int)).length := by
        simp [writeInt32_length]
      have hpacket := ihp hv.1 hflat.1 hszp fuel' hfp options
        (pre ++ writeInt32 ((encPacket p).length : Int)) (encPackets rest ++ post)
        (by simp only [List.length_append, writeInt32_length]
            exact Dvd.dvd.add hpre (by decide))
      rw [hassoc2, hlen1]
      simp only [hpacket]
      have hassoc3 : (pre ++ writeInt32 ((encPacket p).length : Int))
            ++ (encPacket p ++ (encPackets rest ++ post))
          = ((pre ++ writeInt32 ((encPacket p).length : Int)) ++ encPacket p)
              ++ (encPackets rest ++ post) := by
        simp [List.append_assoc]
      have hlen2 : (pre ++ writeInt32 ((encPacket p).length : Int)).length
            + (encPacket p).length
          = ((pre ++ writeInt32 ((encPacket p).length : Int)) ++ encPacket p).length := by
        simp
        omega
      have hcast2 : (pre.length : Int) + ((encPackets (p :: rest)).length : Int)
          = ((((pre ++ writeInt32 ((encPacket p).length : Int)) ++ encPacket p).length : Int)
              + ((encPackets rest).length : Int)) := by
        simp [encPackets, writeInt32_length]
        ring
      have hloop := ihrest hv.2 hflat.2 hszrest fuel' hfr options
        ((pre ++ writeInt32 ((encPacket p).length : Int)) ++ encPacket p) post
        (by have hdp := encPacket_dvd.1 p hv.1
            simp only [List.length_append, writeInt32_length]
            omega)
      rw [hassoc3, hlen2, hcast2, hloop]
      simp only [Except.ok.injEq, Prod.mk.injEq]
      constructor
      · simp [decViewList]
      · simp [encPackets, writeInt32_length]
        omega

end osc

namespace osc

theorem writeString_length_ge (s : Bytes) : 4 ≤ (writeString s).length := by
  rw [writeString_length]
  have h1 := le_align4 (s.length + 1)
  have h2 := align4_dvd (s.length + 1)
  omega

theorem packetFuel_le :
    (∀ x, 4 * packetFuel x ≤ (encPacket x).length)
    ∧ (∀ ps, 4 * packetsFuel ps ≤ 12 + (encPackets ps).length) := by
  apply packet_mutual_induction
  · intro addr args
    have h1 := writeString_length_ge addr
    have h2 := writeString_length_ge (44 :: argTags (argsAsList args))
    simp only [packetFuel, encPacket, encMsg, List.length_append]
    omega
  · intro s f ps ih
    have hbt := writeString_bundleTag_length
    simp only [packetFuel, encPacket, List.length_append, writeTimeTag_length, hbt]
    omega
  · simp [packetsFuel, encPackets]
  · intro p ps ihp ihps
    simp only [packetsFuel, encPackets, List.length_append, writeInt32_length]
    rcases Nat.le_total (packetFuel p) (packetsFuel ps) with h | h
    · rw [Nat.max_eq_right h]
      omega
    · rw [Nat.max_eq_left h]
      omega

theorem readPacket_enc (x : Packet) (hv : validPacketB x = true)
    (hflat : flatPacketB x = true) (hsz : sizesOkB x = true) (options : Opts) :
    readPacket (encPacket x) options = .ok (decViewPacket options x) := by
  have hfuel : packetFuel x ≤ (encPacket x).length + 1 := by
    have := packetFuel_le.1 x
    omega
  have hmain := readPacket_main.1 x hv hflat hsz ((encPacket x).length + 1) hfuel
    options [] [] (by simp)
  simp only [List.nil_append, List.append_nil, List.length_nil, Nat.cast_zero,
    zero_add, Int.zero_add] at hmain
  unfold readPacket
  simp only [hmain]

theorem decView_meta_id :
    (∀ x, validPacketB x = true → decViewPacket ⟨true, false⟩ x = x)
    ∧ (∀ ps, validPacketsB ps = true → decViewList ⟨true, false⟩ ps = ps) := by
  apply packet_mutual_induction
  · intro addr args hv
    simp only [validPacketB, Bool.and_eq_true] at hv
    match args, hv.2 with
    | .arrV as, hargs =>
      simp only [decViewPacket, argsAsList, decArgsView]
      have hid : repArg true = id := funext fun a => rfl
      simp [hid]
  · intro s f ps ih hv
    simp only [validPacketB, Bool.and_eq_true] at hv
    simp [decViewPacket, ih hv.2]
  · intro _
    simp [decViewList]
  · intro p ps ihp ihps hv
    simp only [validPacketsB, Bool.and_eq_true] at hv
    simp [decViewList, ihp hv.1, ihps hv.2]

end osc

-- ## Time conversion (osc.ntpToJSTime / osc.jsToNTPTime)
--
-- The two conversion functions are pure floating-point arithmetic, so the
-- JS `number` semantics matter here: every arithmetic operation rounds its
-- exact result to the nearest IEEE binary64 value (53-bit significand,
-- ties to even).  `roundDouble` below implements that rounding over ℚ
-- exactly; the exponent range is unbounded in the model (overflow,
-- subnormals and signed zero are irrelevant at the magnitudes these
-- functions see, and the repo only feeds them finite values).

namespace osc

/-- The binary exponent of `x`: the unique `e` with `2^e ≤ |x| < 2^(e+1)`
(for `x ≠ 0`), computed from the bit lengths of numerator and
denominator. -/
def findExp (x : ℚ) : ℤ :=
  let a : ℤ := (Nat.log2 x.num.natAbs : ℤ)
  let b : ℤ := (Nat.log2 x.den : ℤ)
  if (2 : ℚ) ^ (a - b) ≤ |x| then a - b else a - b - 1

theorem abs_eq_natAbs_div (x : ℚ) : |x| = (x.num.natAbs : ℚ) / (x.den : ℚ) := by
  have hden : (0 : ℚ) < (x.den : ℚ) := by exact_mod_cast x.den_pos
  have hx : x * (x.den : ℚ) = (x.num : ℚ) := Rat.mul_den_eq_num x
  rw [eq_div_iff (ne_of_gt hden), Int.cast_natAbs, Int.cast_abs, ← hx, abs_mul,
    abs_of_pos hden]

theorem findExp_bounds (x : ℚ) (hx : x ≠ 0) :
    (2 : ℚ) ^ findExp x ≤ |x| ∧ |x| < 2 ^ (findExp x + 1) := by
  have hp0 : x.num.natAbs ≠ 0 := by
    simp [Int.natAbs_ne_zero, Rat.num_ne_zero, hx]
  have hq0 : x.den ≠ 0 := x.den_nz
  set p := x.num.natAbs with hp
  set q := x.den with hq
  set a := Nat.log2 p with ha
  set b := Nat.log2 q with hb
  have hA1 : ((2 : ℚ)) ^ (a : ℤ) ≤ (p : ℚ) := by
    rw [zpow_natCast]
    exact_mod_cast Nat.log2_self_le hp0
  have hA2 : (p : ℚ) < 2 ^ ((a : ℤ) + 1) := by
    rw [show ((a : ℤ) + 1) = ((a + 1 : ℕ) : ℤ) by push_cast; ring, zpow_natCast]
    exact_mod_cast Nat.lt_log2_self
  have hB1 : ((2 : ℚ)) ^ (b : ℤ) ≤ (q : ℚ) := by
    rw [zpow_natCast]
    exact_mod_cast Nat.log2_self_le hq0
  have hB2 : (q : ℚ) < 2 ^ ((b : ℤ) + 1) := by
    rw [show ((b : ℤ) + 1) = ((b + 1 : ℕ) : ℤ) by push_cast; ring, zpow_natCast]
    exact_mod_cast Nat.lt_log2_self
  have hppos : (0 : ℚ) < (p : ℚ) := by
    exact_mod_cast Nat.pos_of_ne_zero hp0
  have hqpos : (0 : ℚ) < (q : ℚ) := by
    exact_mod_cast Nat.pos_of_ne_zero hq0
  have habs : |x| = (p : ℚ) / (q : ℚ) := abs_eq_natAbs_div x
  have hub : |x| < (2 : ℚ) ^ ((a : ℤ) - b + 1) := by
    rw [habs, show ((a : ℤ) - b + 1) = ((a : ℤ) + 1) - (b : ℤ) by ring,
      zpow_sub₀ (by norm_num : (2 : ℚ) ≠ 0)]
    gcongr
  have hlb : (2 : ℚ) ^ ((a : ℤ) - b - 1) ≤ |x| := by
    rw [habs, show ((a : ℤ) - b - 1) = (a : ℤ) - ((b : ℤ) + 1) by ring,
      zpow_sub₀ (by norm_num : (2 : ℚ) ≠ 0)]
    gcongr
  unfold findExp
  dsimp only
  rw [← hp, ← hq, ← ha, ← hb]
  split
  · next h =>
    exact ⟨h, hub⟩
  · next h =>
    refine ⟨hlb, ?_⟩
    rw [show ((a : ℤ) - b - 1 + 1) = (a : ℤ) - b by ring]
    exact lt_of_not_le h

theorem findExp_unique (x : ℚ) (e : ℤ) (hx : x ≠ 0)
    (h1 : (2 : ℚ) ^ e ≤ |x|) (h2 : |x| < 2 ^ (e + 1)) : findExp x = e := by
  obtain ⟨g1, g2⟩ := findExp_bounds x hx
  by_contra hne
  rcases lt_or_gt_of_ne hne with hlt | hgt
  · have hle : (2 : ℚ) ^ (findExp x + 1) ≤ 2 ^ e := by
      apply zpow_le_zpow_right₀ (by norm_num : (1 : ℚ) ≤ 2)
      omega
    linarith
  · have hle : (2 : ℚ) ^ (e + 1) ≤ 2 ^ findExp x := by
      apply zpow_le_zpow_right₀ (by norm_num : (1 : ℚ) ≤ 2)
      omega
    linarith

/-- Round to the nearest integer, ties to even — the rounding of an IEEE
significand. -/
def roundHalfEven (m : ℚ) : ℤ :=
  if Int.fract m < 1 / 2 then ⌊m⌋
  else if 1 / 2 < Int.fract m then ⌊m⌋ + 1
  else if 2 ∣ ⌊m⌋ then ⌊m⌋ else ⌊m⌋ + 1

theorem roundHalfEven_intCast (n : ℤ) : roundHalfEven (n : ℚ) = n := by
  unfold roundHalfEven
  rw [Int.fract_intCast, Int.floor_intCast]
  norm_num

theorem roundHalfEven_int_add (n : ℤ) (r : ℚ) (h0 : 0 ≤ r) (h1 : r < 1 / 2) :
    roundHalfEven ((n : ℚ) + r) = n := by
  unfold roundHalfEven
  have hfr : Int.fract ((n : ℚ) + r) = r := by
    rw [add_comm, Int.fract_add_int]
    exact Int.fract_eq_self.mpr ⟨h0, by linarith⟩
  have hfl : ⌊(n : ℚ) + r⌋ = n := by
    rw [add_comm, Int.floor_add_int, Int.floor_eq_zero_iff.mpr ⟨h0, by linarith⟩]
    ring
  rw [hfr, hfl, if_pos h1]

/-- Round an exact rational to the nearest IEEE binary64 value: scale
`|x|` so its integer part has 53 bits, round the significand to nearest
(ties to even), scale back, restore the sign. -/
def roundDouble (x : ℚ) : ℚ :=
  if x = 0 then 0
  else
    let e := findExp x
    let r := (roundHalfEven (|x| * 2 ^ (52 - e)) : ℚ) * 2 ^ (e - 52)
    if x < 0 then -r else r

theorem roundDouble_zero : roundDouble 0 = 0 := by
  simp [roundDouble]

theorem roundDouble_pos_of_bounds (x : ℚ) (e : ℤ) (hx : 0 < x)
    (h1 : (2 : ℚ) ^ e ≤ x) (h2 : x < 2 ^ (e + 1)) :
    roundDouble x = (roundHalfEven (x * 2 ^ (52 - e)) : ℚ) * 2 ^ (e - 52) := by
  have hax : |x| = x := abs_of_pos hx
  unfold roundDouble
  rw [if_neg (ne_of_gt hx), findExp_unique x e (ne_of_gt hx) (by rwa [hax]) (by rwa [hax])]
  dsimp only
  rw [hax, if_neg (not_lt.mpr (le_of_lt hx))]

/-- Values with at most 53 significant bits are fixed points of the
rounding: `roundDouble (k * 2^c) = k * 2^c` whenever `|k| < 2^53`. -/
theorem roundDouble_rep (k c : ℤ) (hk : k.natAbs < 2 ^ 53) :
    roundDouble ((k : ℚ) * 2 ^ c) = (k : ℚ) * 2 ^ c := by
  rcases eq_or_ne k 0 with rfl | hk0
  · simp [roundDouble_zero]
  · set x : ℚ := (k : ℚ) * 2 ^ c with hxdef
    have h2c : (0 : ℚ) < 2 ^ c := zpow_pos (by norm_num) c
    have hkq : ((k : ℚ)) ≠ 0 := Int.cast_ne_zero.mpr hk0
    have hxne : x ≠ 0 := mul_ne_zero hkq (ne_of_gt h2c)
    have habs : |x| = ((|k| : ℤ) : ℚ) * 2 ^ c := by
      rw [hxdef, abs_mul, abs_of_pos h2c, Int.cast_abs]
    set e := findExp x with he
    obtain ⟨g1, g2⟩ := findExp_bounds x hxne
    have hlt53 : |x| < 2 ^ (c + 53) := by
      rw [habs]
      have hcast : (((|k| : ℤ)) : ℚ) < 2 ^ (53 : ℕ) := by
        have hz : |k| < 2 ^ 53 := by
          rw [Int.abs_eq_natAbs]
          exact_mod_cast hk
        exact_mod_cast hz
      calc (((|k| : ℤ)) : ℚ) * 2 ^ c < 2 ^ (53 : ℕ) * 2 ^ c := by
            apply mul_lt_mul_of_pos_right hcast h2c
        _ = 2 ^ (c + 53) := by
            rw [← zpow_natCast (2 : ℚ) 53, ← zpow_add₀ (by norm_num : (2 : ℚ) ≠ 0)]
            ring_nf
    have he_le : e ≤ c + 52 := by
      by_contra hcon
      have : (2 : ℚ) ^ (c + 53) ≤ 2 ^ e := by
        apply zpow_le_zpow_right₀ (by norm_num : (1 : ℚ) ≤ 2)
        omega
      linarith
    set d : ℕ := (c + 52 - e).toNat with hd
    have hdz : (d : ℤ) = c + 52 - e := Int.toNat_of_nonneg (by omega)
    have hpow1 : (2 : ℚ) ^ c * 2 ^ (52 - e) = 2 ^ (d : ℕ) := by
      rw [← zpow_natCast (2 : ℚ) d, ← zpow_add₀ (by norm_num : (2 : ℚ) ≠ 0)]
      congr 1
      omega
    have hpow2 : (2 : ℚ) ^ (d : ℕ) * 2 ^ (e - 52) = 2 ^ c := by
      rw [← zpow_natCast (2 : ℚ) d, ← zpow_add₀ (by norm_num : (2 : ℚ) ≠ 0)]
      congr 1
      omega
    have hm : |x| * 2 ^ (52 - e) = ((|k| * 2 ^ d : ℤ) : ℚ) := by
      rw [habs, mul_assoc, hpow1]
      push_cast
      ring
    have hround : roundHalfEven (|x| * 2 ^ (52 - e)) = (|k| * 2 ^ d : ℤ) := by
      rw [hm]
      exact roundHalfEven_intCast _
    have hr : ((roundHalfEven (|x| * 2 ^ (52 - e)) : ℚ)) * 2 ^ (e - 52) = |x| := by
      rw [hround, habs]
      push_cast
      rw [mul_assoc, hpow2]
    unfold roundDouble
    rw [if_neg hxne, ← he]
    dsimp only
    rcases lt_trichotomy x 0 with hneg | hzero | hpos
    · rw [if_pos hneg, hr, abs_of_neg hneg]
      ring
    · exact absurd hzero hxne
    · rw [if_neg (not_lt.mpr (le_of_lt hpos)), hr, abs_of_pos hpos]

theorem roundDouble_intCast (k : ℤ) (hk : k.natAbs < 2 ^ 53) :
    roundDouble (k : ℚ) = (k : ℚ) := by
  have h := roundDouble_rep k 0 hk
  simpa using h

theorem roundDouble_natCast (n : ℕ) (hn : n < 2 ^ 53) :
    roundDouble (n : ℚ) = (n : ℚ) := by
  have h := roundDouble_intCast (n : ℤ) (by omega)
  push_cast at h
  exact h

/-- IEEE binary64 addition of exact values: add, then round. -/
def doubleAdd (x y : ℚ) : ℚ := roundDouble (x + y)

/-- IEEE binary64 subtraction. -/
def doubleSub (x y : ℚ) : ℚ := roundDouble (x - y)

/-- IEEE binary64 multiplication. -/
def doubleMul (x y : ℚ) : ℚ := roundDouble (x * y)

/-- IEEE binary64 division. -/
def doubleDiv (x y : ℚ) : ℚ := roundDouble (x / y)

/-- `osc.SECS_70YRS` (exactly representable). -/
def SECS_70YRS : ℚ := 2208988800

/-- `osc.TWO_32` (exactly representable). -/
def TWO_32 : ℚ := 4294967296

/-- `osc.ntpToJSTime`: `((secs1900 - SECS_70YRS) + frac / TWO_32) * 1000`,
a JS MILLISECOND timestamp, with every arithmetic step rounded to
binary64 as the engine computes it. -/
def ntpToJSTime (secs1900 frac : ℚ) : ℚ :=
  doubleMul (doubleAdd (doubleSub secs1900 SECS_70YRS) (doubleDiv frac TWO_32)) 1000

/-- `osc.jsToNTPTime`: split `jsTime/1000` into whole seconds
(`Math.floor`, exact on a double) and fraction, returning
`[secsWhole + SECS_70YRS, Math.round(TWO_32 * secsFrac)]`.
`Math.round` rounds half toward positive infinity on the exact double
argument, which is Mathlib's `round` (`⌊x + 1/2⌋`); its integer result
is returned exactly (it stays far below 2^53 here). -/
def jsToNTPTime (jsTime : ℚ) : ℚ × ℚ :=
  let secs := doubleDiv jsTime 1000
  let secsWhole : ℤ := ⌊secs⌋
  let secsFrac := doubleSub secs (secsWhole : ℚ)
  (doubleAdd (secsWhole : ℚ) SECS_70YRS, (round (doubleMul TWO_32 secsFrac) : ℚ))

theorem ntpToJSTime_wholeSecond (s : ℕ) (hs : s < 2 ^ 32) :
    ntpToJSTime (s : ℚ) 0 = (((s : ℤ) - 2208988800 : ℤ) : ℚ) * 1000 := by
  obtain ⟨k, hkdef⟩ : ∃ k : ℤ, k = (s : ℤ) - 2208988800 := ⟨_, rfl⟩
  have hk53 : k.natAbs < 2 ^ 53 := by omega
  have h1 : doubleSub (s : ℚ) SECS_70YRS = (k : ℚ) := by
    unfold doubleSub SECS_70YRS
    rw [show ((s : ℚ) - 2208988800) = (k : ℚ) by rw [hkdef]; push_cast; ring]
    exact roundDouble_intCast k hk53
  have h2 : doubleDiv 0 TWO_32 = 0 := by
    unfold doubleDiv
    rw [zero_div]
    exact roundDouble_zero
  have h3 : doubleAdd (k : ℚ) 0 = (k : ℚ) := by
    unfold doubleAdd
    rw [add_zero]
    exact roundDouble_intCast k hk53
  have h4 : doubleMul (k : ℚ) 1000 = ((k * 1000 : ℤ) : ℚ) := by
    unfold doubleMul
    rw [show ((k : ℚ) * 1000) = ((k * 1000 : ℤ) : ℚ) by push_cast; ring]
    exact roundDouble_intCast (k * 1000) (by omega)
  unfold ntpToJSTime
  rw [h1, h2, h3, h4, ← hkdef]
  push_cast
  ring

theorem jsToNTP_roundtrip_wholeSecond (s : ℕ) (hs : s < 2 ^ 32) :
    jsToNTPTime (ntpToJSTime (s : ℚ) 0) = ((s : ℚ), 0) := by
  obtain ⟨k, hkdef⟩ : ∃ k : ℤ, k = (s : ℤ) - 2208988800 := ⟨_, rfl⟩
  have hk53 : k.natAbs < 2 ^ 53 := by omega
  have hnt : ntpToJSTime (s : ℚ) 0 = ((k * 1000 : ℤ) : ℚ) := by
    rw [ntpToJSTime_wholeSecond s hs, ← hkdef]
    push_cast
    ring
  rw [hnt]
  unfold jsToNTPTime
  have hdiv : doubleDiv ((k * 1000 : ℤ) : ℚ) 1000 = (k : ℚ) := by
    unfold doubleDiv
    rw [show (((k * 1000 : ℤ) : ℚ) / 1000) = (k : ℚ) by push_cast; ring]
    exact roundDouble_intCast k hk53
  rw [hdiv]
  dsimp only
  have hfloor : ⌊(k : ℚ)⌋ = k := Int.floor_intCast k
  rw [hfloor]
  have hsub : doubleSub (k : ℚ) (k : ℚ) = 0 := by
    unfold doubleSub
    rw [sub_self]
    exact roundDouble_zero
  rw [hsub]
  have hadd : doubleAdd (k : ℚ) SECS_70YRS = (s : ℚ) := by
    unfold doubleAdd SECS_70YRS
    rw [show ((k : ℚ) + 2208988800) = ((s : ℕ) : ℚ) by rw [hkdef]; push_cast; ring]
    exact roundDouble_natCast s (by omega)
  rw [hadd]
  have hmul : doubleMul TWO_32 0 = 0 := by
    unfold doubleMul TWO_32
    rw [mul_zero]
    exact roundDouble_zero
  rw [hmul]
  norm_num

theorem jsToNTP_roundtrip_halfSecond (s : ℕ) (hs : s < 2 ^ 32) :
    jsToNTPTime (ntpToJSTime (s : ℚ) 2147483648) = ((s : ℚ), 2147483648) := by
  obtain ⟨k, hkdef⟩ : ∃ k : ℤ, k = (s : ℤ) - 2208988800 := ⟨_, rfl⟩
  have hk53 : k.natAbs < 2 ^ 53 := by omega
  have hhalf : ((k : ℚ)) + 1 / 2 = ((2 * k + 1 : ℤ) : ℚ) * 2 ^ (-1 : ℤ) := by
    push_cast
    rw [show ((2 : ℚ) ^ (-1 : ℤ)) = 1 / 2 by norm_num]
    ring
  have hrep : roundDouble ((k : ℚ) + 1 / 2) = (k : ℚ) + 1 / 2 := by
    rw [hhalf]
    exact roundDouble_rep (2 * k + 1) (-1) (by omega)
  have h1 : doubleSub (s : ℚ) SECS_70YRS = (k : ℚ) := by
    unfold doubleSub SECS_70YRS
    rw [show ((s : ℚ) - 2208988800) = (k : ℚ) by rw [hkdef]; push_cast; ring]
    exact roundDouble_intCast k hk53
  have h2 : doubleDiv 2147483648 TWO_32 = 1 / 2 := by
    unfold doubleDiv TWO_32
    rw [show ((2147483648 : ℚ) / 4294967296) = ((1 : ℤ) : ℚ) * 2 ^ (-1 : ℤ) by norm_num]
    rw [roundDouble_rep 1 (-1) (by norm_num)]
    norm_num
  have h3 : doubleAdd (k : ℚ) (1 / 2) = (k : ℚ) + 1 / 2 := by
    unfold doubleAdd
    exact hrep
  have h4 : doubleMul ((k : ℚ) + 1 / 2) 1000 = ((k * 1000 + 500 : ℤ) : ℚ) := by
    unfold doubleMul
    rw [show (((k : ℚ) + 1 / 2) * 1000) = ((k * 1000 + 500 : ℤ) : ℚ) by push_cast; ring]
    exact roundDouble_intCast (k * 1000 + 500) (by omega)
  have hnt : ntpToJSTime (s : ℚ) 2147483648 = ((k * 1000 + 500 : ℤ) : ℚ) := by
    unfold ntpToJSTime
    rw [h1, h2, h3, h4]
  rw [hnt]
  unfold jsToNTPTime
  have hdiv : doubleDiv ((k * 1000 + 500 : ℤ) : ℚ) 1000 = (k : ℚ) + 1 / 2 := by
    unfold doubleDiv
    rw [show (((k * 1000 + 500 : ℤ) : ℚ) / 1000) = ((k : ℚ) + 1 / 2) by push_cast; ring]
    exact hrep
  rw [hdiv]
  dsimp only
  have hfloor : ⌊(k : ℚ) + 1 / 2⌋ = k := by
    rw [add_comm, Int.floor_add_int]
    norm_num
  rw [hfloor]
  have hsub : doubleSub ((k : ℚ) + 1 / 2) (k : ℚ) = 1 / 2 := by
    unfold doubleSub
    rw [show (((k : ℚ) + 1 / 2) - (k : ℚ)) = ((1 : ℤ) : ℚ) * 2 ^ (-1 : ℤ) by push_cast; norm_num]
    rw [roundDouble_rep 1 (-1) (by norm_num)]
    norm_num
  rw [hsub]
  have hadd : doubleAdd (k : ℚ) SECS_70YRS = (s : ℚ) := by
    unfold doubleAdd SECS_70YRS
    rw [show ((k : ℚ) + 2208988800) = ((s : ℕ) : ℚ) by rw [hkdef]; push_cast; ring]
    exact roundDouble_natCast s (by omega)
  rw [hadd]
  have hmul : doubleMul TWO_32 (1 / 2) = 2147483648 := by
    unfold doubleMul TWO_32
    rw [show ((4294967296 : ℚ) * (1 / 2)) = ((2147483648 : ℤ) : ℚ) by norm_num]
    rw [roundDouble_intCast 2147483648 (by norm_num)]
    norm_num
  rw [hmul]
  have hrnd : round ((2147483648 : ℚ)) = 2147483648 := by
    rw [show ((2147483648 : ℚ)) = ((2147483648 : ℤ) : ℚ) by norm_num, round_intCast]
  rw [hrnd]
  norm_num

/-- At current-era magnitudes the fraction is below the half-ulp of the
second count: `1691011200 + 300/2^32` rounds DOWN to the whole second
(the ulp at `2^30 ≤ x < 2^31` is `2^-22`, and `300/2^32 < 2^-23`). -/
theorem roundDouble_currentEra_drop :
    roundDouble (1691011200 + 300 / 4294967296) = 1691011200 := by
  have hb := roundDouble_pos_of_bounds (1691011200 + 300 / 4294967296) 30
    (by norm_num) (by norm_num) (by norm_num)
  rw [hb]
  have hm : ((1691011200 : ℚ) + 300 / 4294967296) * 2 ^ ((52 : ℤ) - 30)
      = ((7092615040204800 : ℤ) : ℚ) + 75 / 256 := by
    norm_num
  rw [hm, roundHalfEven_int_add 7092615040204800 (75 / 256) (by norm_num) (by norm_num)]
  norm_num

theorem ntpToJSTime_ms_example : ntpToJSTime 2208988801 0 = 1000 := by
  unfold ntpToJSTime SECS_70YRS TWO_32
  have h1 : doubleSub 2208988801 2208988800 = 1 := by
    unfold doubleSub
    rw [show ((2208988801 : ℚ) - 2208988800) = ((1 : ℤ) : ℚ) by norm_num]
    rw [roundDouble_intCast 1 (by norm_num)]
    norm_num
  have h2 : doubleDiv 0 4294967296 = 0 := by
    unfold doubleDiv
    rw [zero_div]
    exact roundDouble_zero
  have h3 : doubleAdd 1 0 = 1 := by
    unfold doubleAdd
    rw [add_zero, show ((1 : ℚ)) = ((1 : ℤ) : ℚ) by norm_num]
    rw [roundDouble_intCast 1 (by norm_num)]
  have h4 : doubleMul 1 1000 = 1000 := by
    unfold doubleMul
    rw [one_mul, show ((1000 : ℚ)) = ((1000 : ℤ) : ℚ) by norm_num]
    rw [roundDouble_intCast 1000 (by norm_num)]
  rw [h1, h2, h3, h4]

/-- The round trip at a current-era time tag with fraction 300: the
fraction comes back as 0, an error of `300/2^32` seconds. -/
theorem roundtrip_fraction_lost :
    jsToNTPTime (ntpToJSTime 3900000000 300) = (3900000000, 0) := by
  have h1 : doubleSub 3900000000 2208988800 = 1691011200 := by
    unfold doubleSub
    rw [show ((3900000000 : ℚ) - 2208988800) = ((1691011200 : ℤ) : ℚ) by norm_num]
    rw [roundDouble_intCast 1691011200 (by norm_num)]
    norm_num
  have h2 : doubleDiv 300 4294967296 = 300 / 4294967296 := by
    unfold doubleDiv
    rw [show ((300 : ℚ) / 4294967296) = ((75 : ℤ) : ℚ) * 2 ^ (-30 : ℤ) by norm_num]
    rw [roundDouble_rep 75 (-30) (by norm_num)]
  have h3 : doubleAdd 1691011200 (300 / 4294967296) = 1691011200 := by
    unfold doubleAdd
    exact roundDouble_currentEra_drop
  have h4 : doubleMul 1691011200 1000 = 1691011200000 := by
    unfold doubleMul
    rw [show ((1691011200 : ℚ) * 1000) = ((1691011200000 : ℤ) : ℚ) by norm_num]
    rw [roundDouble_intCast 1691011200000 (by norm_num)]
    norm_num
  have hnt : ntpToJSTime 3900000000 300 = 1691011200000 := by
    unfold ntpToJSTime SECS_70YRS TWO_32
    rw [h1, h2, h3, h4]
  rw [hnt]
  unfold jsToNTPTime SECS_70YRS TWO_32
  have hdiv : doubleDiv 1691011200000 1000 = 1691011200 := by
    unfold doubleDiv
    rw [show ((1691011200000 : ℚ) / 1000) = ((1691011200 : ℤ) : ℚ) by norm_num]
    rw [roundDouble_intCast 1691011200 (by norm_num)]
    norm_num
  rw [hdiv]
  dsimp only
  have hfloor : ⌊(1691011200 : ℚ)⌋ = 1691011200 := by
    rw [show ((1691011200 : ℚ)) = ((1691011200 : ℤ) : ℚ) by norm_num, Int.floor_intCast]
  rw [hfloor]
  have hsub : doubleSub (1691011200 : ℚ) ((1691011200 : ℤ) : ℚ) = 0 := by
    unfold doubleSub
    rw [show ((1691011200 : ℚ) - ((1691011200 : ℤ) : ℚ)) = 0 by norm_num]
    exact roundDouble_zero
  rw [hsub]
  have hadd : doubleAdd ((1691011200 : ℤ) : ℚ) 2208988800 = 3900000000 := by
    unfold doubleAdd
    rw [show (((1691011200 : ℤ) : ℚ) + 2208988800) = ((3900000000 : ℤ) : ℚ) by norm_num]
    rw [roundDouble_intCast 3900000000 (by norm_num)]
    norm_num
  rw [hadd]
  have hmul : doubleMul 4294967296 0 = 0 := by
    unfold doubleMul
    rw [mul_zero]
    exact roundDouble_zero
  rw [hmul]
  norm_num

end osc

-- ## ScsynthOSC orchestration layer

/-- Messages the ScsynthOSC convenience methods post to the oscOut
worker. -/
inductive OutWorkerMsg where
  | sendMsg (oscData : osc.Bytes) (editorId : Int) (runTag : osc.Bytes)
      (waitTimeMs : Option ℚ)
  | sendImmediateMsg (oscData : osc.Bytes)
  | cancelEditorTagMsg (editorId : Int) (runTag : osc.Bytes)
  | cancelEditorMsg (editorId : Int)
  | cancelAllMsg

/-- The state of a ScsynthOSC instance that its readiness checks consult. -/
structure ScsynthOSCState where
  initialized : Bool

/-- The option fields `ScsynthOSC.send` destructures, with their JS
defaults `{editorId = 0, runTag = "", waitTimeMs = null}`. -/
structure SendOptions where
  editorId : Int
  runTag : osc.Bytes
  waitTimeMs : Option ℚ

/-- The JS default send options. -/
def defaultSendOptions : SendOptions := ⟨0, [], none⟩

namespace ScsynthOSC

/-- `ScsynthOSC.send`: when not initialized it logs
`"[ScsynthOSC] Not initialized"` with `console.error` and RETURNS (posts
nothing, throws nothing); otherwise it posts one `send` message to the
oscOut worker.  The result lists the messages posted. -/
def send (st : ScsynthOSCState) (oscData : osc.Bytes) (options : SendOptions) :
    Except String (List OutWorkerMsg) :=
  if st.initialized = false then .ok []
  else .ok [.sendMsg oscData options.editorId options.runTag options.waitTimeMs]

/-- `ScsynthOSC.sendImmediate`: same readiness behavior as `send`. -/
def sendImmediate (st : ScsynthOSCState) (oscData : osc.Bytes) :
    Except String (List OutWorkerMsg) :=
  if st.initialized = false then .ok []
  else .ok [.sendImmediateMsg oscData]

/-- `ScsynthOSC.cancelEditorTag`: `if (!this.initialized) return;` —
a silent no-op when not ready. -/
def cancelEditorTag (st : ScsynthOSCState) (editorId : Int) (runTag : osc.Bytes) :
    Except String (List OutWorkerMsg) :=
  if st.initialized = false then .ok []
  else .ok [.cancelEditorTagMsg editorId runTag]

/-- `ScsynthOSC.cancelEditor`: silent no-op when not ready. -/
def cancelEditor (st : ScsynthOSCState) (editorId : Int) :
    Except String (List OutWorkerMsg) :=
  if st.initialized = false then .ok []
  else .ok [.cancelEditorMsg editorId]

/-- `ScsynthOSC.cancelAll`: silent no-op when not ready. -/
def cancelAll (st : ScsynthOSCState) : Except String (List OutWorkerMsg) :=
  if st.initialized = false then .ok []
  else .ok [.cancelAllMsg]

/-- Abstraction of one worker's behavior during the init handshake:
whether it posts its `initialized` message within the
`initWorkerTimeoutMs` window.  `ScsynthOSC.initWorker` races an
`initialized`-message listener against a `setTimeout` of that duration:
the promise resolves when the message wins and rejects with
`"<name> worker initialization timeout"` when the timer wins. -/
structure WorkerInitBehavior where
  acksWithinTimeout : Bool

/-- The 5-second (`5e3` ms) per-worker init timeout of
`ScsynthOSC.initWorker`. -/
def initWorkerTimeoutMs : Nat := 5000

/-- `ScsynthOSC.initWorker` outcome for one worker. -/
def initWorker (name : String) (w : WorkerInitBehavior) : Except String Unit :=
  if w.acksWithinTimeout then .ok ()
  else .error (name ++ " worker initialization timeout")

/-- `Promise.all`: fulfils when every element fulfils and otherwise
rejects with the first rejection.  The three per-worker timeout timers
are armed in array order within one task, so simultaneous timeouts
settle in array order, making list order the settle order. -/
def promiseAll : List (Except String Unit) → Except String Unit
  | [] => .ok ()
  | .ok () :: rest => promiseAll rest
  | .error e :: _ => .error e

/-- What one `ScsynthOSC.init` call produced: the new state, the
returned/thrown outcome, the number of `start` messages posted (to the
oscIn and debug workers), and how many times the `onInitialized`
callback ran. -/
structure InitResult where
  state : ScsynthOSCState
  result : Except String Unit
  startMsgs : Nat
  onInitializedCalls : Nat

/-- `ScsynthOSC.init`: an already-initialized instance warns and returns
(no callback); otherwise all three workers are awaited through
`Promise.all` — on success the oscIn and debug workers are started,
`initialized` becomes true and `onInitialized` runs once; on the first
failure the error is rethrown after `onError`, and `initialized` stays
false. -/
def init (st : ScsynthOSCState) (oscOut oscIn debug : WorkerInitBehavior) :
    InitResult :=
  if st.initialized then ⟨st, .ok (), 0, 0⟩
  else
    match promiseAll [initWorker "OSC OUT" oscOut,
                      initWorker "OSC IN" oscIn,
                      initWorker "DEBUG" debug] with
    | .ok () => ⟨⟨true⟩, .ok (), 2, 1⟩
    | .error e => ⟨st, .error e, 0, 0⟩

end ScsynthOSC

-- ## SuperSonic time-sync bridge

/-- The clock-related state of a SuperSonic instance together with the
readings the environment delivers at the current instant:
`audioCurrentTime` is `audioContext.currentTime` (seconds) and `nowMs`
is `Date.now()` (milliseconds).  `resolvePending` is whether
`_resolveTimeOffset` is non-null (the first-offset promise is still
unresolved).  JS double arithmetic is modelled over ℚ. -/
structure SuperSonicState where
  initialized : Bool
  wasmTimeOffset : Option ℚ
  resolvePending : Bool
  audioCurrentTime : ℚ
  nowMs : ℚ

namespace SuperSonic

/-- `SECONDS_1900_TO_1970` in `#calculateTimeOffset`. -/
def SECONDS_1900_TO_1970 : ℚ := 2208988800

/-- `SuperSonic.#calculateTimeOffset`:
`wasmTimeOffset = 2208988800 + Date.now()/1000 − audioContext.currentTime`;
when `_resolveTimeOffset` is pending it is resolved and cleared. -/
def calculateTimeOffset (st : SuperSonicState) : SuperSonicState :=
  { st with
    wasmTimeOffset := some (SECONDS_1900_TO_1970 + st.nowMs / 1000 - st.audioCurrentTime)
    resolvePending := false }

/-- The `statechange` listener registered once by
`#initializeAudioContext`: recompute the offset only when the context
state became `running` AND `_resolveTimeOffset` is still pending
(`if (this.audioContext.state === "running" && this._resolveTimeOffset)`).
The new clock readings at the event instant are recorded first. -/
def onStateChange (st : SuperSonicState) (running : Bool) (audioTime nowMs : ℚ) :
    SuperSonicState :=
  let st1 := { st with audioCurrentTime := audioTime, nowMs := nowMs }
  if running && st1.resolvePending then calculateTimeOffset st1 else st1

/-- `SuperSonic.#initializeAudioContext`: create the first-offset promise
(`resolvePending := true`), register the statechange listener, and when
the context is already running compute the offset immediately. -/
def initializeAudioContext (running : Bool) (audioTime nowMs : ℚ) : SuperSonicState :=
  let st : SuperSonicState := ⟨false, none, true, audioTime, nowMs⟩
  if running then calculateTimeOffset st else st

/-- The literal header bytes compared against
`String.fromCharCode(...uint8Data.slice(0, 8)) === "#bundle\0"`. -/
def bundleHeader : osc.Bytes := [35, 98, 117, 110, 100, 108, 101, 0]

/-- `SuperSonic.sendOSC` (time-sync behavior): throws when not
initialized; when the payload has at least 16 bytes and its first 8
equal the bundle header, the offset is computed synchronously on demand
if still null, the big-endian time tag is read at byte offsets 8 and 12,
and unless `ntpSeconds === 0 && (ntpFraction === 0 || ntpFraction === 1)`
the release delay is
`waitTimeMs = ((ntpSeconds + ntpFraction/2^32) − wasmTimeOffset −
audioContext.currentTime − 0.05) × 1000`; otherwise `waitTimeMs` stays
null.  The bytes are then forwarded to `ScsynthOSC.send` with that
`waitTimeMs`; the result carries the state (after any on-demand offset
computation) and the delay passed along.  The 0.05 is the fixed 50 ms
`latencyS` budget. -/
def sendOSC (st : SuperSonicState) (uint8Data : osc.Bytes) :
    Except String (SuperSonicState × Option ℚ) :=
  if st.initialized = false then .error "Not initialized. Call init() first."
  else if 16 ≤ uint8Data.length then
    if uint8Data.take 8 = bundleHeader then
      let st1 := if st.wasmTimeOffset = none then calculateTimeOffset st else st
      let ntpSeconds := osc.beVal ((uint8Data.drop 8).take 4)
      let ntpFraction := osc.beVal ((uint8Data.drop 12).take 4)
      if ntpSeconds = 0 ∧ (ntpFraction = 0 ∨ ntpFraction = 1) then .ok (st1, none)
      else
        let ntpTimeS : ℚ := (ntpSeconds : ℚ) + (ntpFraction : ℚ) / 4294967296
        let audioTimeS := ntpTimeS - st1.wasmTimeOffset.getD 0
        .ok (st1, some ((audioTimeS - st1.audioCurrentTime - 0.05) * 1000))
    else .ok (st, none)
  else .ok (st, none)

/-- The argument mapping of `SuperSonic.send`: strings become `s`
arguments, numbers become `i` when `Number.isInteger` holds and `f`
otherwise, EVERY `Uint8Array`/`ArrayBuffer` becomes `b` (a 4-byte one —
`Arg.midiV` — included), and anything else throws
"Unsupported argument type".  `Arg.int32V` stands for an integer-valued
JS number and the float constructors for non-integer ones (see the Arg
documentation). -/
def mapSendArg (arg : osc.Arg) : Except String osc.Arg :=
  match arg with
  | .strV s => .ok (.typed 115 (.strV s))
  | .charV c => .ok (.typed 115 (.charV c))
  | .int32V n => .ok (.typed 105 (.int32V n))
  | .float32V b => .ok (.typed 102 (.float32V b))
  | .float64V b => .ok (.typed 102 (.float64V b))
  | .blobV d => .ok (.typed 98 (.blobV d))
  | .midiV b0 b1 b2 b3 => .ok (.typed 98 (.blobV [b0, b1, b2, b3]))
  | _ => .error "Unsupported argument type"

/-- Sequence `mapSendArg` over the argument list. -/
def mapSendArgs : List osc.Arg → Except String (List osc.Arg)
  | [] => .ok []
  | a :: rest =>
    match mapSendArg a with
    | .error e => .error e
    | .ok a2 =>
      match mapSendArgs rest with
      | .error e => .error e
      | .ok r => .ok (a2 :: r)

/-- `SuperSonic.send(address, ...args)`: unlike the ScsynthOSC
convenience calls, it THROWS
`"SuperSonic not initialized. Call init() first."` when the instance is
not initialized; otherwise it maps the arguments, encodes the message
with `osc.writePacket` (default options) and hands the bytes to
`sendOSC`. -/
def send (st : SuperSonicState) (address : osc.Bytes) (args : List osc.Arg) :
    Except String (SuperSonicState × Option ℚ) :=
  if st.initialized = false then
    .error "SuperSonic not initialized. Call init() first."
  else
    match mapSendArgs args with
    | .error e => .error e
    | .ok oscArgs =>
      match osc.writePacket (.msg address (.arrV oscArgs)) osc.defaults with
      | .error e => .error e
      | .ok oscData => sendOSC st oscData

end SuperSonic

-- ## Claim theorems

namespace osc

/-- `findIdx?` finds nothing when no element satisfies the predicate. -/
theorem findIdx93_none (rest : List Nat) (h : ∀ b ∈ rest, b ≠ 93) :
    rest.findIdx? (fun x => x = 93) = none := by
  induction rest with
  | nil => rfl
  | cons b r ih =>
    simp only [List.findIdx?_cons, decide_eq_true_eq]
    rw [if_neg (h b (by simp)), List.findIdx?_succ,
      ih (fun x hx => h x (by simp [hx]))]
    rfl

end osc

/-- C1: for valid packets, decoding the encoding gives the packet back
(with metadata kept on both sides, so the decode view is the identity),
including nested bundles and the raw `(0, 1)` immediate time-tag
sentinel, which is preserved as `(0, 1)`.  Amended against the code: the
round trip holds only for packets whose argument arrays are NOT nested
deeper than one bracket level (`flatPacketB`) — `osc.readArgumentsIntoArray`
matches the first `]` with `indexOf`, so any 2-deep array fails to decode
(see the counterexample) — and whose bundle elements' encoded sizes fit
the signed 32-bit size prefix (`sizesOkB`). -/
theorem C1_roundtrip (x : osc.Packet) (hv : osc.validPacketB x = true)
    (hflat : osc.flatPacketB x = true) (hsz : osc.sizesOkB x = true) :
    (osc.writePacket x ⟨true, false⟩).bind (fun bs => osc.readPacket bs ⟨true, false⟩)
      = .ok x := by
  rw [osc.writePacket_enc x hv false]
  show osc.readPacket (osc.encPacket x) ⟨true, false⟩ = .ok x
  rw [osc.readPacket_enc x hv hflat hsz ⟨true, false⟩, osc.decView_meta_id.1 x hv]

/-- C1 witness: a concrete bundle with the `(0, 1)` immediate time tag, a
nested (single-level) argument array, and an `i`/`f` pair round-trips
exactly, sentinel included. -/
theorem C1_roundtrip_witness :
    (osc.writePacket (.bundle 0 1 [.msg [47, 97]
        (.arrV [.typed 105 (.int32V 3), .arrV [.typed 102 (.float32V 5)]])])
        ⟨true, false⟩).bind (fun bs => osc.readPacket bs ⟨true, false⟩)
      = .ok (.bundle 0 1 [.msg [47, 97]
          (.arrV [.typed 105 (.int32V 3), .arrV [.typed 102 (.float32V 5)]])]) :=
  C1_roundtrip _ (by decide) (by decide) (by decide)

/-- C1 counterexample: the valid message `/a` with the doubly nested
argument array `[[ ]]` encodes fine but fails to decode — the claim's
"including nested argument arrays" does not hold as stated. -/
theorem C1_counterexample :
    osc.validPacketB (.msg [47, 97] (.arrV [.arrV [.arrV []]])) = true ∧
    (osc.writePacket (.msg [47, 97] (.arrV [.arrV [.arrV []]])) ⟨true, false⟩).bind
        (fun bs => osc.readPacket bs ⟨true, false⟩)
      = .error "Invalid argument type tag: an open array type tag was found without a matching close array tag" := by
  refine ⟨by decide, ?_⟩
  rw [osc.writePacket_enc _ (by decide) false]
  rw [show osc.encPacket (.msg [47, 97] (.arrV [.arrV [.arrV []]]))
      = [47, 97, 0, 0, 44, 91, 91, 93, 93, 0, 0, 0] from by decide]
  show osc.readPacket [47, 97, 0, 0, 44, 91, 91, 93, 93, 0, 0, 0] ⟨true, false⟩ = _
  simp [osc.readPacket, osc.readPacketF, osc.readMessageContents, osc.readArguments,
    osc.readString, osc.scanString, osc.align4, osc.readArgsLoop]

/-- C2: amended against the code.  (i) Type-tag strings with at most one
bracket level decode to correctly shaped argument sequences: on any
encoder-layout buffer for valid, flat typed arguments, `osc.readArguments`
returns exactly those arguments.  (ii) An open `[` whose following tags
contain no `]` at all raises the unterminated-array error.  The claim's
2-plus levels of nesting do NOT decode (see the counterexample):
`osc.readArgumentsIntoArray` pairs `[` with the FIRST following `]`. -/
theorem C2_array_tags :
    (∀ (as : List osc.Arg) (options : osc.Opts) (post : osc.Bytes),
      osc.validTypedArgs as = true → osc.flatArgs as = true →
      osc.readArguments (osc.writeString (44 :: osc.argTags as) ++ (osc.argPayloads as ++ post))
          options 0
        = .ok (as.map (osc.repArg options.metadata),
               (osc.writeString (44 :: osc.argTags as)).length + (osc.argPayloads as).length))
    ∧ (∀ (rest : List Nat) (dv : osc.Bytes) (options : osc.Opts) (idx : Nat),
      (∀ b ∈ rest, b ≠ 93) →
      osc.readArgsLoop (91 :: rest) dv options idx
        = .error "Invalid argument type tag: an open array type tag was found without a matching close array tag") := by
  constructor
  · intro as options post hv hflat
    have h := osc.readArguments_enc as hv hflat options [] post (by simp)
    simpa [List.append_assoc] using h
  · intro rest dv options idx hrest
    simp only [osc.readArgsLoop]
    rw [osc.findIdx93_none rest hrest]
    simp

/-- C2 witness: the flat tag string `,i[f]` with its payload decodes to
the right nested shape, and `readArgsLoop` on `[f` (no closing `]`)
raises the unterminated-array error. -/
theorem C2_witness :
    osc.readArguments [44, 105, 91, 102, 93, 0, 0, 0, 0, 0, 0, 1, 0, 0, 0, 3]
        osc.defaults 0
      = .ok ([.int32V 1, .arrV [.float32V 3]], 16)
    ∧ osc.readArgsLoop [91, 102] [] osc.defaults 0
      = .error "Invalid argument type tag: an open array type tag was found without a matching close array tag" :=
  ⟨C2_array_tags.1 [.typed 105 (.int32V 1), .arrV [.typed 102 (.float32V 3)]]
      osc.defaults [] (by decide) (by decide),
   C2_array_tags.2 [102] [] osc.defaults 0 (by decide)⟩

/-- C2 counterexample: the 2-deep tag string `,[f[ff]]` with a well-formed
(all-zero) 20-byte argument buffer does not decode to a nested sequence:
it raises the unterminated-array error, because the outer `[` is paired
with the FIRST `]` and the inner `[` is then left unmatched. -/
theorem C2_counterexample :
    osc.readArguments (osc.writeString [44, 91, 102, 91, 102, 102, 93, 93]
        ++ List.replicate 12 0) osc.defaults 0
      = .error "Invalid argument type tag: an open array type tag was found without a matching close array tag" := by
  simp [osc.readArguments, osc.readString, osc.scanString, osc.align4, osc.writeString,
    osc.readArgsLoop, osc.readArgument, osc.readFloat32, osc.getBytes, osc.getUint32,
    osc.beVal, Except.map, osc.defaults]

/-- C3: amended against the code.  `osc.readPacket` reads the leading
padded string and dispatches on its FIRST character only: when the header
starts with neither `#` (35) nor `/` (47) decoding errors, but a header
starting with `#` is accepted as a bundle whether or not it is the
literal `#bundle` (see the counterexample — the literal is never
compared). -/
theorem C3_header_dispatch (data : osc.Bytes) (options : osc.Opts)
    (h35 : (osc.readString data 0).1.head? ≠ some 35)
    (h47 : (osc.readString data 0).1.head? ≠ some 47) :
    ∃ e, osc.readPacket data options = .error e := by
  refine ⟨"The header of an OSC packet did not contain an OSC address or a #bundle string", ?_⟩
  unfold osc.readPacket
  simp only [osc.readPacketF]
  rw [if_neg h35, if_neg h47]

/-- C3 witness: a packet whose header is the single character `X` is a
decode error. -/
theorem C3_witness :
    ∃ e, osc.readPacket [88, 0, 0, 0] osc.defaults = .error e :=
  C3_header_dispatch [88, 0, 0, 0] osc.defaults (by decide) (by decide)

/-- C3 counterexample: the 12-byte packet whose header is `#x` — not the
literal `#bundle` — decodes successfully to an empty bundle instead of
erroring: only the first character of the header is inspected. -/
theorem C3_counterexample :
    osc.readPacket [35, 120, 0, 0, 0, 0, 0, 0, 0, 0, 0, 0] osc.defaults
      = .ok (.bundle 0 0 [])
    ∧ (osc.readString [35, 120, 0, 0, 0, 0, 0, 0, 0, 0, 0, 0] 0).1 ≠ osc.bundleTag := by
  constructor
  · simp only [osc.readPacket, osc.readPacketF, osc.readBundleLoop, List.length_cons,
      List.length_nil]
    rfl
  · decide

/-- C4: amended against the code.  `osc.inferTypeForArgument` maps
booleans to T/F, strings (one-character ones included) to s, byte
sequences (`Uint8Array`/`ArrayBuffer`, 4-byte ones included) to b,
`undefined` and bare `null` to N, plain objects with numeric `high` and
`low` fields to `h` — a case the claim omits — and EVERY number, whether
integer-valued or not, to `f` (102), never to `i` (see the
counterexample); only values outside all of those kinds (time-tag
objects, color objects, JS arrays, `{type, value}` wrappers reaching the
inferrer with an undefined value) raise the checked cannot-infer error.
Moreover, on the untyped encode path the claim describes, a bare `null`
never reaches the inferrer: `osc.annotateArguments` evaluates `.type` on
it and throws a TypeError, while `undefined` does come through as N. -/
theorem C4_inferred_types :
    (osc.inferTypeForArgument (.boolV true) = .ok 84)
    ∧ (osc.inferTypeForArgument (.boolV false) = .ok 70)
    ∧ (∀ s, osc.inferTypeForArgument (.strV s) = .ok 115)
    ∧ (∀ c, osc.inferTypeForArgument (.charV c) = .ok 115)
    ∧ (∀ n, osc.inferTypeForArgument (.int32V n) = .ok 102)
    ∧ (∀ b, osc.inferTypeForArgument (.float32V b) = .ok 102)
    ∧ (∀ b, osc.inferTypeForArgument (.float64V b) = .ok 102)
    ∧ (osc.inferTypeForArgument .undefV = .ok 78)
    ∧ (osc.inferTypeForArgument .nullV = .ok 78)
    ∧ (∀ d, osc.inferTypeForArgument (.blobV d) = .ok 98)
    ∧ (∀ b0 b1 b2 b3, osc.inferTypeForArgument (.midiV b0 b1 b2 b3) = .ok 98)
    ∧ (∀ hi lo, osc.inferTypeForArgument (.int64V hi lo) = .ok 104)
    ∧ (∀ s f, ∃ e, osc.inferTypeForArgument (.timeTagV s f) = .error e)
    ∧ (∀ r g b a, ∃ e, osc.inferTypeForArgument (.colorV r g b a) = .error e)
    ∧ (∀ t v, ∃ e, osc.inferTypeForArgument (.typed t v) = .error e)
    ∧ (∀ es, ∃ e, osc.inferTypeForArgument (.arrV es) = .error e)
    ∧ (∀ rest, ∃ e, osc.annotateArguments (.nullV :: rest) = .error e)
    ∧ (osc.annotateArguments [.undefV] = .ok [.typed 78 .undefV]) := by
  refine ⟨rfl, rfl, fun _ => rfl, fun _ => rfl, fun _ => rfl, fun _ => rfl,
    fun _ => rfl, rfl, rfl, fun _ => rfl, fun _ _ _ _ => rfl, fun _ _ => rfl,
    fun _ _ => ⟨_, rfl⟩, fun _ _ _ _ => ⟨_, rfl⟩, fun _ _ => ⟨_, rfl⟩,
    fun _ => ⟨_, rfl⟩,
    fun rest => ⟨"TypeError: Cannot read properties of null", ?_⟩, ?_⟩
  · simp only [osc.annotateArguments]
  · simp only [osc.annotateArguments]
    rfl

/-- C4 counterexample: the integer-valued number 3 is inferred as `f`
(102), not the claimed `i` (105). -/
theorem C4_counterexample :
    osc.inferTypeForArgument (.int32V 3) = .ok 102 ∧ (102 : Nat) ≠ 105 :=
  ⟨rfl, by decide⟩

/-- C5: amended against the code.  The ScsynthOSC-level convenience calls
(`send`, `cancelEditorTag`, `cancelEditor`, `cancelAll`) on an
uninitialized instance are silent no-ops: they throw nothing and post
nothing to the oscOut worker.  But the SuperSonic-level `send` — one of
the claim's cited sources — THROWS on an uninitialized instance rather
than no-opping (see the counterexample), so the claim's "every
convenience send call" does not hold. -/
theorem C5_notready_behavior :
    (∀ (st : ScsynthOSCState) (data : osc.Bytes) (options : SendOptions)
        (eid : Int) (tag : osc.Bytes),
      st.initialized = false →
      ScsynthOSC.send st data options = .ok []
      ∧ ScsynthOSC.sendImmediate st data = .ok []
      ∧ ScsynthOSC.cancelEditorTag st eid tag = .ok []
      ∧ ScsynthOSC.cancelEditor st eid = .ok []
      ∧ ScsynthOSC.cancelAll st = .ok [])
    ∧ (∀ (st : SuperSonicState) (address : osc.Bytes) (args : List osc.Arg),
      st.initialized = false →
      SuperSonic.send st address args
        = .error "SuperSonic not initialized. Call init() first.") := by
  constructor
  · intro st data options eid tag h
    refine ⟨?_, ?_, ?_, ?_, ?_⟩ <;>
      simp [ScsynthOSC.send, ScsynthOSC.sendImmediate, ScsynthOSC.cancelEditorTag,
        ScsynthOSC.cancelEditor, ScsynthOSC.cancelAll, h]
  · intro st address args h
    simp [SuperSonic.send, h]

/-- C5 witness: on a concrete uninitialized ScsynthOSC state every
convenience call posts nothing and returns normally. -/
theorem C5_witness :
    ScsynthOSC.send ⟨false⟩ [1, 2] defaultSendOptions = .ok []
    ∧ ScsynthOSC.sendImmediate ⟨false⟩ [1, 2] = .ok []
    ∧ ScsynthOSC.cancelEditorTag ⟨false⟩ 1 [97] = .ok []
    ∧ ScsynthOSC.cancelEditor ⟨false⟩ 1 = .ok []
    ∧ ScsynthOSC.cancelAll ⟨false⟩ = .ok [] :=
  C5_notready_behavior.1 ⟨false⟩ [1, 2] defaultSendOptions 1 [97] rfl

/-- C5 counterexample: `SuperSonic.send` on an uninitialized instance
throws instead of silently no-opping. -/
theorem C5_counterexample :
    SuperSonic.send ⟨false, none, false, 0, 0⟩ [47, 97] []
      = .error "SuperSonic not initialized. Call init() first." := rfl

/-- C6: during `ScsynthOSC.init` the three workers are each awaited with
the 5-second (`initWorkerTimeoutMs = 5000`) timeout; when one never
acknowledges, init rejects with that worker's
"<name> worker initialization timeout" error — the first failing worker
in the order OSC OUT, OSC IN, DEBUG — the instance is not marked
initialized and subsequent sends stay no-ops; when all acknowledge, init
succeeds and the `onInitialized` callback runs exactly once (and an
already-initialized instance warns and returns without running the
callback again). -/
theorem C6_init_behavior :
    (∀ (st : ScsynthOSCState) (oscOut oscIn debug : ScsynthOSC.WorkerInitBehavior),
      st.initialized = false →
      (oscOut.acksWithinTimeout = false →
        (ScsynthOSC.init st oscOut oscIn debug).result
          = .error "OSC OUT worker initialization timeout")
      ∧ (oscOut.acksWithinTimeout = true → oscIn.acksWithinTimeout = false →
        (ScsynthOSC.init st oscOut oscIn debug).result
          = .error "OSC IN worker initialization timeout")
      ∧ (oscOut.acksWithinTimeout = true → oscIn.acksWithinTimeout = true →
          debug.acksWithinTimeout = false →
        (ScsynthOSC.init st oscOut oscIn debug).result
          = .error "DEBUG worker initialization timeout")
      ∧ ((oscOut.acksWithinTimeout = false ∨ oscIn.acksWithinTimeout = false ∨
          debug.acksWithinTimeout = false) →
        (ScsynthOSC.init st oscOut oscIn debug).state.initialized = false
        ∧ (ScsynthOSC.init st oscOut oscIn debug).onInitializedCalls = 0
        ∧ ∀ (data : osc.Bytes) (options : SendOptions),
            ScsynthOSC.send (ScsynthOSC.init st oscOut oscIn debug).state data options
              = .ok [])
      ∧ (oscOut.acksWithinTimeout = true → oscIn.acksWithinTimeout = true →
          debug.acksWithinTimeout = true →
        (ScsynthOSC.init st oscOut oscIn debug).result = .ok ()
        ∧ (ScsynthOSC.init st oscOut oscIn debug).state.initialized = true
        ∧ (ScsynthOSC.init st oscOut oscIn debug).onInitializedCalls = 1))
    ∧ (∀ (st : ScsynthOSCState) (oscOut oscIn debug : ScsynthOSC.WorkerInitBehavior),
      st.initialized = true →
      (ScsynthOSC.init st oscOut oscIn debug).result = .ok ()
      ∧ (ScsynthOSC.init st oscOut oscIn debug).onInitializedCalls = 0)
    ∧ ScsynthOSC.initWorkerTimeoutMs = 5000 := by
  refine ⟨?_, ?_, rfl⟩
  · intro st oscOut oscIn debug h
    obtain ⟨b1⟩ := oscOut
    obtain ⟨b2⟩ := oscIn
    obtain ⟨b3⟩ := debug
    cases b1 <;> cases b2 <;> cases b3 <;>
      simp [ScsynthOSC.init, ScsynthOSC.initWorker, ScsynthOSC.promiseAll,
        ScsynthOSC.send, h]
  · intro st oscOut oscIn debug h
    simp [ScsynthOSC.init, h]

/-- C6 witness: with the first two workers' fates concrete (OSC OUT acks,
OSC IN times out), init rejects with the OSC IN timeout and the instance
stays uninitialized, with the callback never run. -/
theorem C6_witness :
    (ScsynthOSC.init ⟨false⟩ ⟨true⟩ ⟨false⟩ ⟨true⟩).result
      = .error "OSC IN worker initialization timeout"
    ∧ (ScsynthOSC.init ⟨false⟩ ⟨true⟩ ⟨false⟩ ⟨true⟩).state.initialized = false
    ∧ (ScsynthOSC.init ⟨false⟩ ⟨true⟩ ⟨false⟩ ⟨true⟩).onInitializedCalls = 0 :=
  ⟨(C6_init_behavior.1 ⟨false⟩ ⟨true⟩ ⟨false⟩ ⟨true⟩ rfl).2.1 rfl rfl,
   ((C6_init_behavior.1 ⟨false⟩ ⟨true⟩ ⟨false⟩ ⟨true⟩ rfl).2.2.2.1
      (Or.inr (Or.inl rfl))).1,
   ((C6_init_behavior.1 ⟨false⟩ ⟨true⟩ ⟨false⟩ ⟨true⟩ rfl).2.2.2.1
      (Or.inr (Or.inl rfl))).2.1⟩

/-- C7: amended against the code.  `osc.ntpToJSTime` computes
`((seconds - 2208988800) + fraction / 2^32) * 1000` in IEEE binary64
arithmetic — a MILLISECOND timestamp, ×1000 the claim's seconds-based
formula (see the counterexample).  On that millisecond scale the
composition `jsToNTPTime ∘ ntpToJSTime` is exact whenever every
intermediate value is representable: proved here for every 32-bit second
count with fraction 0 and with fraction 2^31.  For general fractions the
double rounding loses low fraction bits, and at current-era magnitudes
the loss exceeds even the claimed 1/2^32 tolerance (counterexample:
fraction 300 at seconds 3900000000 comes back as 0). -/
theorem C7_time_conversion :
    (∀ s : ℕ, s < 2 ^ 32 →
      osc.ntpToJSTime (s : ℚ) 0 = (((s : ℤ) - 2208988800 : ℤ) : ℚ) * 1000)
    ∧ (∀ s : ℕ, s < 2 ^ 32 →
      osc.jsToNTPTime (osc.ntpToJSTime (s : ℚ) 0) = ((s : ℚ), 0))
    ∧ (∀ s : ℕ, s < 2 ^ 32 →
      osc.jsToNTPTime (osc.ntpToJSTime (s : ℚ) 2147483648) = ((s : ℚ), 2147483648)) :=
  ⟨osc.ntpToJSTime_wholeSecond, osc.jsToNTP_roundtrip_wholeSecond,
   osc.jsToNTP_roundtrip_halfSecond⟩

/-- C7 witness: a current-era whole-second tag converts to milliseconds
and back exactly, as does the same second with a half-second fraction. -/
theorem C7_witness :
    osc.ntpToJSTime ((3900000000 : ℕ) : ℚ) 0
      = ((((3900000000 : ℕ) : ℤ) - 2208988800 : ℤ) : ℚ) * 1000
    ∧ osc.jsToNTPTime (osc.ntpToJSTime ((3900000000 : ℕ) : ℚ) 0)
      = (((3900000000 : ℕ) : ℚ), 0)
    ∧ osc.jsToNTPTime (osc.ntpToJSTime ((3900000000 : ℕ) : ℚ) 2147483648)
      = (((3900000000 : ℕ) : ℚ), 2147483648) :=
  ⟨C7_time_conversion.1 3900000000 (by norm_num),
   C7_time_conversion.2.1 3900000000 (by norm_num),
   C7_time_conversion.2.2 3900000000 (by norm_num)⟩

/-- C7 counterexample: one second past the 1970 epoch gives
`ntpToJSTime` = 1000, not the claimed seconds-based value 1 — the
function returns milliseconds; and the double rounding breaks even the
claimed 1/2^32 tolerance of the round trip: the time tag
`(3900000000, 300)` comes back with fraction 0, a fractional error of
`300/2^32` seconds. -/
theorem C7_counterexample :
    osc.ntpToJSTime 2208988801 0 = 1000
    ∧ (1000 : ℚ) ≠ (2208988801 - 2208988800) + 0 / 2 ^ 32
    ∧ osc.jsToNTPTime (osc.ntpToJSTime 3900000000 300) = ((3900000000 : ℚ), 0)
    ∧ (300 : ℚ) / 2 ^ 32 > 1 / 2 ^ 32 :=
  ⟨osc.ntpToJSTime_ms_example, by norm_num, osc.roundtrip_fraction_lost, by norm_num⟩

/-- C8: amended against the code.  `SuperSonic.sendOSC` inspects only the
first 16 bytes of the payload (conjunct 4); when they carry the literal
bundle header and the time tag read at offsets 8/12 is outside the
immediate set, the release delay is
`((seconds + fraction/2^32) − offset − audioContext.currentTime − 0.05) × 1000`
milliseconds with the fixed 50 ms latency budget (conjunct 1); a
non-bundle header or a short payload passes no delay (conjuncts 2–3);
and a bundle met before any offset exists triggers the synchronous
on-demand `#calculateTimeOffset`, whose result the delay then uses
(conjunct 5).  Amended: the code treats BOTH `(0, 0)` and `(0, 1)` as
immediate — `!(ntpSeconds === 0 && (ntpFraction === 0 || ntpFraction === 1))`
— not only the `(0, 1)` sentinel (see the counterexample). -/
theorem C8_sendOSC_timing :
    (∀ (st : SuperSonicState) (data : osc.Bytes) (o : ℚ) (s f : ℕ),
      st.initialized = true → st.wasmTimeOffset = some o →
      16 ≤ data.length → data.take 8 = SuperSonic.bundleHeader →
      osc.beVal ((data.drop 8).take 4) = s →
      osc.beVal ((data.drop 12).take 4) = f →
      ¬(s = 0 ∧ (f = 0 ∨ f = 1)) →
      SuperSonic.sendOSC st data
        = .ok (st, some ((((s : ℚ) + (f : ℚ) / 4294967296)
            - o - st.audioCurrentTime - 0.05) * 1000)))
    ∧ (∀ (st : SuperSonicState) (data : osc.Bytes),
      st.initialized = true → data.take 8 ≠ SuperSonic.bundleHeader →
      SuperSonic.sendOSC st data = .ok (st, none))
    ∧ (∀ (st : SuperSonicState) (data : osc.Bytes),
      st.initialized = true → data.length < 16 →
      SuperSonic.sendOSC st data = .ok (st, none))
    ∧ (∀ (st : SuperSonicState) (d1 d2 : osc.Bytes),
      d1.take 16 = d2.take 16 → 16 ≤ d1.length → 16 ≤ d2.length →
      SuperSonic.sendOSC st d1 = SuperSonic.sendOSC st d2)
    ∧ (∀ (st : SuperSonicState) (data : osc.Bytes) (s f : ℕ),
      st.initialized = true → st.wasmTimeOffset = none →
      16 ≤ data.length → data.take 8 = SuperSonic.bundleHeader →
      osc.beVal ((data.drop 8).take 4) = s →
      osc.beVal ((data.drop 12).take 4) = f →
      ¬(s = 0 ∧ (f = 0 ∨ f = 1)) →
      SuperSonic.sendOSC st data
        = .ok (SuperSonic.calculateTimeOffset st,
            some ((((s : ℚ) + (f : ℚ) / 4294967296)
              - (2208988800 + st.nowMs / 1000 - st.audioCurrentTime)
              - st.audioCurrentTime - 0.05) * 1000))) := by
  refine ⟨?_, ?_, ?_, ?_, ?_⟩
  · intro st data o s f hinit hoff hlen hhdr hs hf hsent
    unfold SuperSonic.sendOSC
    rw [hinit, if_neg (by decide), if_pos hlen, if_pos hhdr, hoff,
      if_neg (show ¬(some o = none) by simp), hs, hf]
    dsimp only
    rw [if_neg hsent]
    simp [Option.getD, hoff]
  · intro st data hinit hne
    unfold SuperSonic.sendOSC
    rw [hinit, if_neg (by decide)]
    by_cases hlen : 16 ≤ data.length
    · rw [if_pos hlen, if_neg hne]
    · rw [if_neg hlen]
  · intro st data hinit hlt
    unfold SuperSonic.sendOSC
    rw [hinit, if_neg (by decide), if_neg (by omega : ¬ 16 ≤ data.length)]
  · intro st d1 d2 h16 hl1 hl2
    have h8 : d1.take 8 = d2.take 8 := by
      have h := congrArg (List.take 8) h16
      simpa [List.take_take] using h
    have hsv : (d1.drop 8).take 4 = (d2.drop 8).take 4 := by
      have h := congrArg (List.drop 8) h16
      rw [List.drop_take, List.drop_take] at h
      have h2 := congrArg (List.take 4) h
      simpa [List.take_take] using h2
    have hfv : (d1.drop 12).take 4 = (d2.drop 12).take 4 := by
      have h := congrArg (List.drop 12) h16
      rw [List.drop_take, List.drop_take] at h
      simpa using h
    unfold SuperSonic.sendOSC
    rw [h8, hsv, hfv, if_pos hl1, if_pos hl2]
  · intro st data s f hinit hoff hlen hhdr hs hf hsent
    unfold SuperSonic.sendOSC
    rw [hinit, if_neg (by decide), if_pos hlen, if_pos hhdr, hoff,
      if_pos rfl, hs, hf]
    dsimp only
    rw [if_neg hsent,
      show (SuperSonic.calculateTimeOffset st).wasmTimeOffset
          = some (2208988800 + st.nowMs / 1000 - st.audioCurrentTime) from by
        simp [SuperSonic.calculateTimeOffset, SuperSonic.SECONDS_1900_TO_1970]]
    simp [Option.getD, SuperSonic.calculateTimeOffset]

/-- C8 witness: a concrete 16-byte bundle with time tag `(200, 0)` on an
initialized instance with offset 100 and audio clock at 2 seconds gets
the release delay `((200 + 0/2^32) − 100 − 2 − 0.05) × 1000`. -/
theorem C8_witness :
    SuperSonic.sendOSC ⟨true, some 100, false, 2, 0⟩
        (SuperSonic.bundleHeader ++ [0, 0, 0, 200, 0, 0, 0, 0])
      = .ok (⟨true, some 100, false, 2, 0⟩,
             some (((((200 : ℕ) : ℚ) + ((0 : ℕ) : ℚ) / 4294967296)
               - 100 - 2 - 0.05) * 1000)) :=
  C8_sendOSC_timing.1 ⟨true, some 100, false, 2, 0⟩
    (SuperSonic.bundleHeader ++ [0, 0, 0, 200, 0, 0, 0, 0]) 100 200 0
    rfl rfl (by decide) (by decide) (by decide) (by decide) (by decide)

/-- C8 counterexample: a bundle whose raw time tag is `(0, 0)` — which is
NOT the `(0, 1)` immediate sentinel — still gets no release delay: the
code's immediate test also catches `(0, 0)`. -/
theorem C8_counterexample :
    SuperSonic.sendOSC ⟨true, some 2208988800, false, 0, 0⟩
        (SuperSonic.bundleHeader ++ [0, 0, 0, 0, 0, 0, 0, 0])
      = .ok (⟨true, some 2208988800, false, 0, 0⟩, none)
    ∧ ((0 : ℕ), (0 : ℕ)) ≠ ((0 : ℕ), (1 : ℕ)) := by
  refine ⟨rfl, by decide⟩

/-- C9: amended against the code.  `#calculateTimeOffset` computes
`offset = 2208988800 + wall_clock_seconds − audio_clock_seconds` exactly
as claimed (conjuncts 1–2), but the `statechange` listener recomputes it
only while the initial time-offset promise is unresolved
(`if (... === "running" && this._resolveTimeOffset)`), i.e. on the FIRST
running transition; once the promise resolves, later running transitions
leave the stored offset unchanged (conjunct 3 and the counterexample),
contradicting "recomputed every time ... (not only on the first
transition)". -/
theorem C9_offset_recompute :
    (∀ st : SuperSonicState,
      (SuperSonic.calculateTimeOffset st).wasmTimeOffset
        = some (2208988800 + st.nowMs / 1000 - st.audioCurrentTime))
    ∧ (∀ (st : SuperSonicState) (a n : ℚ), st.resolvePending = true →
      (SuperSonic.onStateChange st true a n).wasmTimeOffset
        = some (2208988800 + n / 1000 - a))
    ∧ (∀ (st : SuperSonicState) (running : Bool) (a n : ℚ),
      st.resolvePending = false →
      (SuperSonic.onStateChange st running a n).wasmTimeOffset
        = st.wasmTimeOffset) := by
  refine ⟨?_, ?_, ?_⟩
  · intro st
    simp [SuperSonic.calculateTimeOffset, SuperSonic.SECONDS_1900_TO_1970]
  · intro st a n h
    simp [SuperSonic.onStateChange, SuperSonic.calculateTimeOffset,
      SuperSonic.SECONDS_1900_TO_1970, h]
  · intro st running a n h
    simp [SuperSonic.onStateChange, h]

/-- C9 witness: the offset formula on concrete clocks, the first running
transition computing it, and a non-pending state leaving it alone. -/
theorem C9_witness :
    (SuperSonic.calculateTimeOffset ⟨false, none, true, 2, 6000⟩).wasmTimeOffset
      = some (2208988800 + 6000 / 1000 - 2)
    ∧ (SuperSonic.onStateChange ⟨false, none, true, 0, 0⟩ true 2 6000).wasmTimeOffset
      = some (2208988800 + 6000 / 1000 - 2)
    ∧ (SuperSonic.onStateChange ⟨false, some 7, false, 0, 0⟩ true 2 6000).wasmTimeOffset
      = some 7 :=
  ⟨C9_offset_recompute.1 ⟨false, none, true, 2, 6000⟩,
   C9_offset_recompute.2.1 ⟨false, none, true, 0, 0⟩ 2 6000 rfl,
   C9_offset_recompute.2.2 ⟨false, some 7, false, 0, 0⟩ true 2 6000 rfl⟩

/-- C9 counterexample: starting suspended, a first running transition at
`Date.now() = 5000 ms`, audio clock 10 s fixes the offset at 2208988795;
a SECOND running transition with very different clocks (99000 ms, 20 s)
leaves the offset at 2208988795 instead of recomputing 2208988879. -/
theorem C9_counterexample :
    ((SuperSonic.onStateChange (SuperSonic.onStateChange
        (SuperSonic.initializeAudioContext false 0 0) true 10 5000) true 20 99000).wasmTimeOffset
      = some 2208988795)
    ∧ (2208988795 : ℚ) ≠ 2208988800 + 99000 / 1000 - 20 := by
  constructor
  · norm_num [SuperSonic.initializeAudioContext, SuperSonic.onStateChange,
      SuperSonic.calculateTimeOffset, SuperSonic.SECONDS_1900_TO_1970]
  · norm_num

/-- C10: under the default decode options (`osc.defaults` has
`unpackSingleArgs = true` and `metadata = false`), a message whose wire
form carries exactly one argument decodes with that argument ITSELF as
`args`, while zero or two-plus arguments decode to a list, so the shape
of `args` depends on the argument count. -/
theorem C10_unpack_single_args :
    (∀ (addr : osc.Bytes) (a : osc.Arg),
      osc.validPacketB (.msg addr (.arrV [a])) = true →
      osc.flatPacketB (.msg addr (.arrV [a])) = true →
      (osc.writePacket (.msg addr (.arrV [a])) ⟨true, false⟩).bind
          (fun bs => osc.readPacket bs osc.defaults)
        = .ok (.msg addr (osc.stripMeta a)))
    ∧ (∀ (addr : osc.Bytes) (as : List osc.Arg),
      osc.validPacketB (.msg addr (.arrV as)) = true →
      osc.flatPacketB (.msg addr (.arrV as)) = true →
      as.length ≠ 1 →
      (osc.writePacket (.msg addr (.arrV as)) ⟨true, false⟩).bind
          (fun bs => osc.readPacket bs osc.defaults)
        = .ok (.msg addr (.arrV (as.map osc.stripMeta)))) := by
  constructor
  · intro addr a hv hflat
    rw [osc.writePacket_enc _ hv false]
    show osc.readPacket (osc.encPacket (.msg addr (.arrV [a]))) osc.defaults = _
    rw [osc.readPacket_enc _ hv hflat rfl osc.defaults]
    simp [osc.decViewPacket, osc.argsAsList, osc.decArgsView, osc.repArg, osc.defaults]
  · intro addr as hv hflat hn
    rw [osc.writePacket_enc _ hv false]
    show osc.readPacket (osc.encPacket (.msg addr (.arrV as))) osc.defaults = _
    rw [osc.readPacket_enc _ hv hflat rfl osc.defaults]
    simp only [osc.decViewPacket, osc.argsAsList, osc.decArgsView]
    rw [if_neg (by simp [hn])]
    have hmap : as.map (osc.repArg osc.defaults.metadata) = as.map osc.stripMeta := by
      apply List.map_congr_left
      intro a _
      rfl
    rw [hmap]

/-- C10 witness: `/a` with one `i` argument decodes to the bare integer,
while the same address with two `i` arguments decodes to a list. -/
theorem C10_witness :
    ((osc.writePacket (.msg [47, 97] (.arrV [.typed 105 (.int32V 7)])) ⟨true, false⟩).bind
        (fun bs => osc.readPacket bs osc.defaults)
      = .ok (.msg [47, 97] (.int32V 7)))
    ∧ ((osc.writePacket (.msg [47, 97]
          (.arrV [.typed 105 (.int32V 7), .typed 105 (.int32V 8)])) ⟨true, false⟩).bind
        (fun bs => osc.readPacket bs osc.defaults)
      = .ok (.msg [47, 97] (.arrV [.int32V 7, .int32V 8]))) :=
  ⟨C10_unpack_single_args.1 [47, 97] (.typed 105 (.int32V 7)) (by decide) (by decide),
   C10_unpack_single_args.2 [47, 97] [.typed 105 (.int32V 7), .typed 105 (.int32V 8)]
      (by decide) (by decide) (by decide)⟩
